import Mathlib

/-!
# Verification of the `baybe` constraint/condition evaluation engine

Shallow embedding of `baybe/constraints.py`: conditions, constraints and
their `get_invalid` algorithms over candidate tables, together with the
serialization round-trip machinery.

A candidate table (a pandas `DataFrame`) is modelled as a list of named
columns plus a list of (row identifier, row) pairs; cell values are either
rationals (standing for the numeric dtypes), strings (labels) or a missing
value `na` (standing for `NaN`).  Fallible pandas operations (missing
columns, list index errors, dtype errors) are modelled with `Except`.
-/

/-- A cell value of the candidate table: numeric values are modelled by
rationals, labels by strings, and `na` stands for a missing value (`NaN`).
`NaN` has a numeric dtype in pandas, hence `na.isNum = true`. -/
inductive Val where
  | num : ℚ → Val
  | str : String → Val
  | na : Val
deriving DecidableEq, Repr

/-- Whether a value belongs to a numeric dtype (kind in `"iufb"`);
`NaN` is a float, so `na` counts as numeric. -/
def Val.isNum : Val → Bool
  | .num _ => true
  | .str _ => false
  | .na => true

/-- The operators eligible for a tolerance (`_valid_tolerance_operators`). -/
def validToleranceOperators : List String := ["=", "==", "!="]

/-- Elementwise comparison backing `_threshold_operators`: `<`, `<=`, `>`,
`>=` are the exact comparisons, `=`/`==` is `numpy.isclose` with `rtol=0`
(i.e. `|x - thr| <= atol`) and `!=` its negation (`_is_not_close`).
Comparisons against `NaN` are false, except `!=` which is true. -/
def thresholdCompare (op : String) (thr tol : ℚ) : Val → Bool
  | .num x =>
    match op with
    | "<" => decide (x < thr)
    | "<=" => decide (x ≤ thr)
    | "=" => decide (|x - thr| ≤ tol)
    | "==" => decide (|x - thr| ≤ tol)
    | "!=" => !decide (|x - thr| ≤ tol)
    | ">" => decide (thr < x)
    | ">=" => decide (thr ≤ x)
    | _ => false
  | .na => op == "!="
  | .str _ => false

/-- Elementwise `Series.isin(selection)` used by `SubSelectionCondition`. -/
def subselectionContains (sel : List String) : Val → Bool
  | .str s => sel.contains s
  | _ => false

/-- The two concrete `Condition` variants: `ThresholdCondition`
(`threshold`, `operator`, optional `tolerance`) and
`SubSelectionCondition` (`selection`). -/
inductive Condition where
  | threshold (thr : ℚ) (op : String) (tolerance : Option ℚ)
  | subselection (selection : List String)
deriving DecidableEq, Repr

/-- `Condition.evaluate` on one column.  A threshold condition first checks
the dtype (`data.dtype.kind not in "iufb"` raises `StrictValidationError`);
for tolerance operators the comparison is applied with `atol=tolerance`
(a `None` tolerance there would make `numpy.isclose` fail). -/
def Condition.evaluate : Condition → List Val → Except String (List Bool)
  | .threshold thr op tol, col =>
    if col.all Val.isNum then
      if validToleranceOperators.contains op then
        match tol with
        | some t => .ok (col.map (thresholdCompare op thr t))
        | none => .error "TypeError: atol must not be None"
      else .ok (col.map (thresholdCompare op thr 0))
    else .error "StrictValidationError: threshold condition applied to non-numeric data"
  | .subselection sel, col => .ok (col.map (subselectionContains sel))

/-! ## Candidate tables -/

/-- A row of the candidate table, aligned with the table's column list. -/
abbrev Row := List Val

/-- A candidate table: named columns and (row identifier, row) pairs. -/
structure Table where
  columns : List String
  entries : List (Nat × Row)
deriving DecidableEq, Repr

/-- `data.index`. -/
def Table.rowIds (t : Table) : List Nat := t.entries.map Prod.fst

/-- Look up the cell of the column named `c` in row `r`. -/
def cellAt (cols : List String) (c : String) (r : Row) : Val :=
  r.getD (cols.indexOf c) Val.na

/-- `data[c]`: the column named `c`; `KeyError` when absent. -/
def Table.col (t : Table) (c : String) : Except String (List Val) :=
  if t.columns.contains c then .ok (t.entries.map (fun e => cellAt t.columns c e.2))
  else .error ("KeyError: " ++ c)

/-- `row[ps]`: the values of the columns named `ps` in row `r`. -/
def selectVals (cols : List String) (ps : List String) (r : Row) : List Val :=
  ps.map (fun p => cellAt cols p r)

/-- `data.index[mask]`: the row identifiers at the positions where the
boolean mask holds. -/
def indexWhere (ids : List Nat) (mask : List Bool) : List Nat :=
  (ids.zip mask).filterMap (fun p => if p.2 then some p.1 else none)

/-- `pd.Index.union`: the sorted union of two identifier sets. -/
def idxUnion (a b : List Nat) : List Nat :=
  ((a ++ b).dedup).insertionSort (· ≤ ·)

/-- `data.drop(index=ids)`: remove every row whose identifier is in `ids`. -/
def Table.dropIds (t : Table) (ids : List Nat) : Table :=
  ⟨t.columns, t.entries.filter (fun e => decide (e.1 ∉ ids))⟩

/-- `duplicated(keep="first")` helper: flag each element whose value
occurred earlier (the accumulator holds the values already seen). -/
def dupMaskAux {β : Type} [DecidableEq β] (seen : List β) : List β → List Bool
  | [] => []
  | s :: rest => decide (s ∈ seen) :: dupMaskAux (s :: seen) rest

/-- `duplicated(keep="first")`: the boolean mask of later duplicates. -/
def dupMask {β : Type} [DecidableEq β] (l : List β) : List Bool := dupMaskAux [] l

/-! ## Constraint variants -/

/-- The keys of `_valid_logic_combiners`. -/
def validLogicCombiners : List String := ["AND", "OR", "XOR"]

/-- `_valid_logic_combiners`: `operator.and_` / `or_` / `xor` on masks. -/
def combFn : String → Bool → Bool → Bool
  | "AND" => and
  | "OR" => or
  | "XOR" => xor
  | _ => fun _ _ => false

/-- `ExcludeConstraint`: `parameters`, `conditions` (one per parameter,
positionally) and a boolean `combiner` (default `"AND"`). -/
structure ExcludeConstraint where
  parameters : List String
  conditions : List Condition
  combiner : String
deriving DecidableEq, Repr

/-- The per-condition masks of `ExcludeConstraint.get_invalid`:
`cond.evaluate(data[self.parameters[k]])` for `k, cond` in
`enumerate(self.conditions)`.  Trailing parameters are never read; a
condition beyond the end of `parameters` is an `IndexError`. -/
def excludeSatisfied (t : Table) : List String → List Condition → Except String (List (List Bool))
  | _, [] => .ok []
  | [], _ :: _ => .error "IndexError: list index out of range"
  | p :: pR, cond :: cR => do
    let colv ← t.col p
    let m ← cond.evaluate colv
    let rest ← excludeSatisfied t pR cR
    return m :: rest

/-- `ExcludeConstraint.get_invalid`: reduce the per-condition masks
pairwise with the combiner and return `data.index[res]`. -/
def ExcludeConstraint.get_invalid (c : ExcludeConstraint) (t : Table) : Except String (List Nat) := do
  let satisfied ← excludeSatisfied t c.parameters c.conditions
  match satisfied with
  | [] => .error "TypeError: reduce of empty sequence"
  | m :: ms =>
    return indexWhere t.rowIds (ms.foldl (fun acc m2 => acc.zipWith (combFn c.combiner) m2) m)

/-- Row-wise `sum(axis=1)` / `prod(axis=1)` over numeric cells; pandas
skips `NaN` (`skipna=True`).  A row holding a string cell would yield an
object-dtype result on which the threshold condition raises anyway, which
the `isNum` guard models. -/
def rowAgg (f : ℚ → ℚ → ℚ) (init : ℚ) (vs : List Val) : Val :=
  if vs.all Val.isNum then
    .num (vs.foldl (fun a v => match v with | .num x => f a x | _ => a) init)
  else .str "object"

/-- `SumConstraint.get_invalid`: sum the parameter columns row-wise, apply
the threshold condition, and return the rows where it fails. -/
def sumGetInvalid (params : List String) (cond : Condition) (t : Table) :
    Except String (List Nat) := do
  if params.all t.columns.contains then
    let sums := t.entries.map (fun e => rowAgg (· + ·) 0 (selectVals t.columns params e.2))
    let sat ← cond.evaluate sums
    return indexWhere t.rowIds (sat.map not)
  else .error "KeyError: missing parameter column"

/-- `ProductConstraint.get_invalid`: like the sum constraint with a
row-wise product. -/
def productGetInvalid (params : List String) (cond : Condition) (t : Table) :
    Except String (List Nat) := do
  if params.all t.columns.contains then
    let prods := t.entries.map (fun e => rowAgg (· * ·) 1 (selectVals t.columns params e.2))
    let sat ← cond.evaluate prods
    return indexWhere t.rowIds (sat.map not)
  else .error "KeyError: missing parameter column"

/-- `nunique(axis=1)` over one row: the number of distinct values with
missing values excluded (`dropna=True`). -/
def rowNUnique (vs : List Val) : Nat :=
  ((vs.filter (fun v => decide (v ≠ Val.na))).dedup).length

/-- `NoLabelDuplicatesConstraint.get_invalid`: a row is invalid iff the
distinct-value count over the parameter columns differs from the column
count. -/
def noLabelDuplicatesGetInvalid (params : List String) (t : Table) :
    Except String (List Nat) :=
  if params.all t.columns.contains then
    .ok (indexWhere t.rowIds (t.entries.map
      (fun e => decide (rowNUnique (selectVals t.columns params e.2) ≠ params.length))))
  else .error "KeyError: missing parameter column"

/-- `LinkedParametersConstraint.get_invalid`: a row is invalid iff the
distinct-value count over the parameter columns is not exactly 1. -/
def linkedParametersGetInvalid (params : List String) (t : Table) :
    Except String (List Nat) :=
  if params.all t.columns.contains then
    .ok (indexWhere t.rowIds (t.entries.map
      (fun e => decide (rowNUnique (selectVals t.columns params e.2) ≠ 1))))
  else .error "KeyError: missing parameter column"

/-- `CustomConstraint.get_invalid`: apply the user predicate row-wise over
the parameter columns; a row is invalid iff the predicate is false.  The
callable is referenced by name through the environment `env`. -/
def customGetInvalid (env : String → List Val → Bool) (params : List String)
    (vname : String) (t : Table) : Except String (List Nat) :=
  if params.all t.columns.contains then
    .ok (indexWhere t.rowIds (t.entries.map
      (fun e => !(env vname (selectVals t.columns params e.2)))))
  else .error "KeyError: missing parameter column"

/-! ## Dependencies constraint -/

/-- A cell of the censored working copy built by
`DependenciesConstraint.get_invalid`: either an original data value, the
`Dummy()` sentinel created for governing parameter `k` (a fresh Python
object per loop iteration, equal only to itself), or the invariant
indicator `(affected value, governing value)` built by `zip`. -/
inductive CVal where
  | base : Val → CVal
  | dummy : Nat → CVal
  | pair : CVal → CVal → CVal
deriving DecidableEq, Repr

/-- Look up the cell of column `c` in a censored row. -/
def cellAtC (cols : List String) (c : String) (r : List CVal) : CVal :=
  r.getD (cols.indexOf c) (CVal.base Val.na)

/-- The condition masks of the censoring loop:
`self.conditions[k].evaluate(data[self.parameters[k]])` for each governing
parameter `k` (an `IndexError` when `conditions` is shorter). -/
def depMasks (t : Table) : List String → List Condition → Except String (List (List Bool))
  | [], _ => .ok []
  | _ :: _, [] => .error "IndexError: list index out of range"
  | p :: pR, cond :: cR => do
    let colv ← t.col p
    let m ← cond.evaluate colv
    let rest ← depMasks t pR cR
    return m :: rest

/-- One row of `censored_data.loc[~mask, self.affected_parameters[k]] = Dummy()`:
when the condition is negative (`b = false`), overwrite the affected cells
with the sentinel of governing parameter `k`. -/
def censorRow (affIdx : List Nat) (k : Nat) (b : Bool) (r : List CVal) : List CVal :=
  if b then r else affIdx.foldl (fun acc i => acc.set i (CVal.dummy k)) r

/-- The censoring loop over the governing parameters (`k` counts the
loop iteration, naming the `Dummy()` object created there). -/
def censorLoop (cols : List String) : Nat → List (List String) → List (List Bool) →
    List (List CVal) → List (List CVal)
  | _, [], _, rows => rows
  | _, _ :: _, [], rows => rows
  | k, aff :: affR, m :: mR, rows =>
    censorLoop cols (k + 1) affR mR
      (List.zipWith (censorRow (aff.map cols.indexOf) k) m rows)

/-- One row of
`censored_data[ap] = list(zip(censored_data[ap], censored_data[param]))`. -/
def zipRow (pIdx aIdx : Nat) (r : List CVal) : List CVal :=
  r.set aIdx (CVal.pair (r.getD aIdx (CVal.base Val.na)) (r.getD pIdx (CVal.base Val.na)))

/-- The invariant-indicator loop: for each governing parameter, re-key each
of its affected columns by pairing it with the governing column's current
value. -/
def zipLoop (cols : List String) : List String → List (List String) →
    List (List CVal) → List (List CVal)
  | [], _, rows => rows
  | _ :: _, [], rows => rows
  | p :: pR, aff :: affR, rows =>
    zipLoop cols pR affR
      (aff.foldl (fun rs a => rs.map (zipRow (cols.indexOf p) (cols.indexOf a))) rows)

/-- The per-row signature merged for duplicate detection: the values of the
columns that are neither governing nor affected, together with the affected
columns collapsed by `frozenset` (permutation invariant, modelled as the
multiset of distinct values) or kept as an ordered `tuple`. -/
def depRowSig (cols others allAff : List String) (pinv : Bool) (r : List CVal) :
    List CVal × (Multiset CVal ⊕ List CVal) :=
  (others.map (fun o => cellAtC cols o r),
   if pinv then Sum.inl (((allAff.map (fun a => cellAtC cols a r)).dedup : List CVal) : Multiset CVal)
   else Sum.inr (allAff.map (fun a => cellAtC cols a r)))

/-- `DependenciesConstraint`: governing `parameters`, one condition and one
affected-parameter group per governing parameter, plus the
`permutation_invariant` flag (a class attribute in the source, set by the
permutation-invariance constraint rather than the user). -/
structure DependenciesConstraint where
  parameters : List String
  conditions : List Condition
  affected_parameters : List (List String)
  permutation_invariant : Bool := false
deriving DecidableEq, Repr

/-- `data.columns.drop(all_affected_params).drop(self.parameters)`. -/
def DependenciesConstraint.otherParams (c : DependenciesConstraint) (cols : List String) :
    List String :=
  (cols.filter (fun col => !((c.affected_parameters.flatten).contains col))).filter
    (fun col => !(c.parameters.contains col))

/-- The full signature pipeline of `DependenciesConstraint.get_invalid`:
censor, build invariant indicators, then merge each row's signature. -/
def DependenciesConstraint.sigs (c : DependenciesConstraint) (t : Table) :
    Except String (List (List CVal × (Multiset CVal ⊕ List CVal))) := do
  let ms ← depMasks t c.parameters c.conditions
  let rows0 := t.entries.map (fun e => e.2.map CVal.base)
  let rows1 := censorLoop t.columns 0 c.affected_parameters ms rows0
  let rows2 := zipLoop t.columns c.parameters c.affected_parameters rows1
  return rows2.map
    (depRowSig t.columns (c.otherParams t.columns) c.affected_parameters.flatten
      c.permutation_invariant)

/-- `DependenciesConstraint.get_invalid`:
`data.index[df_eval.duplicated(keep="first")]`. -/
def DependenciesConstraint.get_invalid (c : DependenciesConstraint) (t : Table) :
    Except String (List Nat) := do
  let s ← c.sigs t
  return indexWhere t.rowIds (dupMask s)

/-! ## Permutation invariance constraint -/

/-- `PermutationInvarianceConstraint`: invariant `parameters` and an
optional nested dependencies constraint. -/
structure PermutationInvarianceConstraint where
  parameters : List String
  dependencies : Option DependenciesConstraint
deriving DecidableEq, Repr

/-- The stage-2 signature: all non-invariant columns unchanged, the
invariant parameters collapsed by `frozenset` (the multiset of their
distinct values). -/
def permInvSig (cols params others : List String) (r : Row) : List Val × Multiset Val :=
  (selectVals cols others r, (((selectVals cols params r).dedup : List Val) : Multiset Val))

/-- Stages 1 and 2 of `PermutationInvarianceConstraint.get_invalid`:
label-duplicate rows (via `NoLabelDuplicatesConstraint`), then
first-occurrence-preserving duplicates of the permutation-invariant
signature among the remaining rows, joined by `pd.Index.union`. -/
def permInvStage12 (params : List String) (t : Table) : Except String (List Nat) := do
  let dupLabels ← noLabelDuplicatesGetInvalid params t
  let others := t.columns.filter (fun c => !(params.contains c))
  let fEntries := t.entries.filter (fun e => !(dupLabels.contains e.1))
  let sigsL := fEntries.map (fun e => permInvSig t.columns params others e.2)
  let indsDupLabels := t.entries.filterMap
    (fun e => if dupLabels.contains e.1 then some e.1 else none)
  let indsDupPerm := indexWhere (fEntries.map Prod.fst) (dupMask sigsL)
  return idxUnion indsDupLabels indsDupPerm

/-- `PermutationInvarianceConstraint.get_invalid` as a state transformer:
besides the result it returns the constraint as left behind by the call,
because the source mutates `self.dependencies.permutation_invariant`
(setting it to `True` before evaluating the dependencies on the rows not
yet flagged). -/
def PermutationInvarianceConstraint.get_invalid_step
    (c : PermutationInvarianceConstraint) (t : Table) :
    Except String (List Nat) × PermutationInvarianceConstraint :=
  match permInvStage12 c.parameters t with
  | .error e => (.error e, c)
  | .ok inds =>
    match c.dependencies with
    | none => (.ok inds, c)
    | some d =>
      match DependenciesConstraint.get_invalid { d with permutation_invariant := true }
          (t.dropIds inds) with
      | .error e =>
        (.error e, { c with dependencies := some { d with permutation_invariant := true } })
      | .ok more =>
        (.ok (idxUnion inds more),
         { c with dependencies := some { d with permutation_invariant := true } })

/-- The result of `PermutationInvarianceConstraint.get_invalid`. -/
def PermutationInvarianceConstraint.get_invalid
    (c : PermutationInvarianceConstraint) (t : Table) : Except String (List Nat) :=
  (c.get_invalid_step t).1

/-! ## The closed set of constraint variants -/

/-- The eight concrete `Constraint` variants.  The custom constraint's
callable is referenced by name, interpreted through an environment. -/
inductive Constraint where
  | exclude : ExcludeConstraint → Constraint
  | sum : List String → Condition → Constraint
  | product : List String → Condition → Constraint
  | noLabelDuplicates : List String → Constraint
  | linkedParameters : List String → Constraint
  | dependencies : DependenciesConstraint → Constraint
  | permutationInvariance : PermutationInvarianceConstraint → Constraint
  | custom : List String → String → Constraint
deriving DecidableEq, Repr

/-- `Constraint.get_invalid`, dispatching over the concrete variants. -/
def Constraint.get_invalid (env : String → List Val → Bool) :
    Constraint → Table → Except String (List Nat)
  | .exclude c, t => c.get_invalid t
  | .sum ps cond, t => sumGetInvalid ps cond t
  | .product ps cond, t => productGetInvalid ps cond t
  | .noLabelDuplicates ps, t => noLabelDuplicatesGetInvalid ps t
  | .linkedParameters ps, t => linkedParametersGetInvalid ps t
  | .dependencies c, t => c.get_invalid t
  | .permutationInvariance c, t => c.get_invalid t
  | .custom ps v, t => customGetInvalid env ps v t

/-! ## Construction-time validation -/

/-- The `attrs` construction of `ExcludeConstraint`: `validate_params`
rejects duplicate parameter names, `min_len(1)` a condition list shorter
than 1, and `in_` an unknown combiner.  No check relates the length of
`conditions` to the length of `parameters`. -/
def mkExcludeConstraint (ps : List String) (cs : List Condition) (comb : String) :
    Except String ExcludeConstraint :=
  if ps.dedup.length ≠ ps.length then
    .error "StrictValidationError: 'parameters' list must have unique values"
  else if cs.length < 1 then
    .error "ValueError: length of 'conditions' must be >= 1"
  else if !(validLogicCombiners.contains comb) then
    .error "ValueError: 'combiner' must be in _valid_logic_combiners"
  else .ok ⟨ps, cs, comb⟩

/-- The one-time wiring the permutation invariance constraint performs on
its nested dependencies constraint: setting `permutation_invariant`. -/
def PermutationInvarianceConstraint.wire (c : PermutationInvarianceConstraint) :
    PermutationInvarianceConstraint :=
  { c with dependencies := c.dependencies.map (fun d => { d with permutation_invariant := true }) }

/-! ## Serialization

Modelled from the spec: the `cattrs` hooks (`unstructure_base`,
`get_base_unstructure_hook`), `check_if_in` and `SerialMixin` live in
`baybe.utils`, outside the excerpt.  Per the spec, serialization produces a
mapping with all constructor-visible fields plus a `type` tag, and
deserialization dispatches on the tag, failing on an unknown tag with an
error naming the valid options. -/

/-- A serialized value: the JSON-like trees produced by `unstructure`. -/
inductive SVal where
  | s : String → SVal
  | q : ℚ → SVal
  | null : SVal
  | arr : List SVal → SVal
  | obj : List (String × SVal) → SVal

/-- The registered `Condition` type tags, in registration order. -/
def conditionTypes : List String := ["THRESHOLD", "SUBSELECTION"]

/-- The registered `Constraint` type tags, in registration (class
definition) order. -/
def constraintTypes : List String :=
  ["EXCLUDE", "SUM", "PRODUCT", "NO_LABEL_DUPLICATES", "LINKED_PARAMETERS",
   "DEPENDENCIES", "PERMUTATION_INVARIANCE", "CUSTOM"]

/-- Modelled from the spec: the error raised by the missing
`baybe.utils.check_if_in` on an unknown tag, naming the valid options. -/
def checkIfInMsg (element : String) (allowed : List String) : String :=
  "EntryError: the value " ++ element ++ " is not recognized; valid options are " ++
    toString allowed ++ "."

/-- `unstructure` of a condition: all fields plus the `type` tag. -/
def unstructureCondition : Condition → SVal
  | .threshold thr op tol =>
    .obj [("type", .s "THRESHOLD"), ("threshold", .q thr), ("operator", .s op),
          ("tolerance", match tol with | some tv => .q tv | none => .null)]
  | .subselection sel =>
    .obj [("type", .s "SUBSELECTION"), ("selection", .arr (sel.map SVal.s))]

/-- `unstructure` of a dependencies constraint.  `permutation_invariant` is
a class attribute, not an `attrs` field, so it is not serialized. -/
def unstructureDependencies (c : DependenciesConstraint) : SVal :=
  .obj [("type", .s "DEPENDENCIES"),
        ("parameters", .arr (c.parameters.map SVal.s)),
        ("conditions", .arr (c.conditions.map unstructureCondition)),
        ("affected_parameters", .arr (c.affected_parameters.map (fun g => .arr (g.map SVal.s))))]

/-- `unstructure` of a constraint: all fields plus the `type` tag. -/
def unstructureConstraint : Constraint → SVal
  | .exclude c =>
    .obj [("type", .s "EXCLUDE"), ("parameters", .arr (c.parameters.map SVal.s)),
          ("conditions", .arr (c.conditions.map unstructureCondition)),
          ("combiner", .s c.combiner)]
  | .sum ps cond =>
    .obj [("type", .s "SUM"), ("parameters", .arr (ps.map SVal.s)),
          ("condition", unstructureCondition cond)]
  | .product ps cond =>
    .obj [("type", .s "PRODUCT"), ("parameters", .arr (ps.map SVal.s)),
          ("condition", unstructureCondition cond)]
  | .noLabelDuplicates ps =>
    .obj [("type", .s "NO_LABEL_DUPLICATES"), ("parameters", .arr (ps.map SVal.s))]
  | .linkedParameters ps =>
    .obj [("type", .s "LINKED_PARAMETERS"), ("parameters", .arr (ps.map SVal.s))]
  | .dependencies c => unstructureDependencies c
  | .permutationInvariance c =>
    .obj [("type", .s "PERMUTATION_INVARIANCE"),
          ("parameters", .arr (c.parameters.map SVal.s)),
          ("dependencies", match c.dependencies with
            | some d => unstructureDependencies d
            | none => .null)]
  | .custom ps v =>
    .obj [("type", .s "CUSTOM"), ("parameters", .arr (ps.map SVal.s)),
          ("validator", .s v)]

/-- Look up a key in a serialized mapping. -/
def lookupS (fields : List (String × SVal)) (k : String) : Option SVal :=
  (fields.find? (fun p => p.1 == k)).map Prod.snd

/-- Parse a serialized string. -/
def parseStr : SVal → Except String String
  | .s v => .ok v
  | _ => .error "TypeError: expected a string"

/-- Parse a serialized number. -/
def parseQ : SVal → Except String ℚ
  | .q v => .ok v
  | _ => .error "TypeError: expected a number"

/-- Parse a serialized list of strings. -/
def parseStrList : SVal → Except String (List String)
  | .arr l => l.mapM parseStr
  | _ => .error "TypeError: expected a list"

/-- `Condition.create`: dispatch on the `type` tag (via `check_if_in`) and
build the matching variant.  The `tolerance` default of the `attrs`
constructor (1e-8 for tolerance operators, `None` otherwise) applies when
the key is absent. -/
def conditionDispatch (fields : List (String × SVal)) (tag : String) :
    Except String Condition :=
  if tag = "THRESHOLD" then do
    let thr ← (lookupS fields "threshold").elim (.error "TypeError: missing threshold") parseQ
    let op ← (lookupS fields "operator").elim (.error "TypeError: missing operator") parseStr
    let tol ← match lookupS fields "tolerance" with
      | some .null => pure (Option.none (α := ℚ))
      | some w => do pure (some (← parseQ w))
      | none => pure (if validToleranceOperators.contains op
          then some ((1 : ℚ) / 100000000) else none)
    return .threshold thr op tol
  else if tag = "SUBSELECTION" then do
    let sel ← (lookupS fields "selection").elim (.error "TypeError: missing selection") parseStrList
    return .subselection sel
  else .error (checkIfInMsg tag conditionTypes)

/-- `Condition.create`: look up the `type` tag and dispatch. -/
def structureCondition (v : SVal) : Except String Condition :=
  match v with
  | .obj fields =>
    match lookupS fields "type" with
    | some (.s tag) => conditionDispatch fields tag
    | _ => .error "KeyError: type"
  | _ => .error "TypeError: expected a mapping"

/-- Parse a serialized list of conditions. -/
def parseCondList : SVal → Except String (List Condition)
  | .arr l => l.mapM structureCondition
  | _ => .error "TypeError: expected a list"

/-- Parse the fields of a dependencies constraint (used both for the
`DEPENDENCIES` tag and for the nested field of
`PERMUTATION_INVARIANCE`). -/
def structureDependencies (v : SVal) : Except String DependenciesConstraint :=
  match v with
  | .obj fields =>
    match lookupS fields "type" with
    | some (.s "DEPENDENCIES") => do
      let ps ← (lookupS fields "parameters").elim (.error "TypeError: missing parameters") parseStrList
      let cs ← (lookupS fields "conditions").elim (.error "TypeError: missing conditions") parseCondList
      let aff ← match lookupS fields "affected_parameters" with
        | some (.arr l) => l.mapM parseStrList
        | _ => .error "TypeError: missing affected_parameters"
      return { parameters := ps, conditions := cs, affected_parameters := aff }
    | _ => .error "KeyError: type"
  | _ => .error "TypeError: expected a mapping"

/-- `Constraint.create`: dispatch on the `type` tag (via `check_if_in`) and
build the matching variant, failing on an unknown tag with an error naming
the registered options. -/
def constraintDispatch (v : SVal) (fields : List (String × SVal)) (tag : String) :
    Except String Constraint :=
  if tag = "EXCLUDE" then do
    let ps ← (lookupS fields "parameters").elim (.error "TypeError: missing parameters") parseStrList
    let cs ← (lookupS fields "conditions").elim (.error "TypeError: missing conditions") parseCondList
    let comb ← match lookupS fields "combiner" with
      | some w => parseStr w
      | none => pure "AND"
    return .exclude ⟨ps, cs, comb⟩
  else if tag = "SUM" then do
    let ps ← (lookupS fields "parameters").elim (.error "TypeError: missing parameters") parseStrList
    let cond ← (lookupS fields "condition").elim (.error "TypeError: missing condition") structureCondition
    return .sum ps cond
  else if tag = "PRODUCT" then do
    let ps ← (lookupS fields "parameters").elim (.error "TypeError: missing parameters") parseStrList
    let cond ← (lookupS fields "condition").elim (.error "TypeError: missing condition") structureCondition
    return .product ps cond
  else if tag = "NO_LABEL_DUPLICATES" then do
    let ps ← (lookupS fields "parameters").elim (.error "TypeError: missing parameters") parseStrList
    return .noLabelDuplicates ps
  else if tag = "LINKED_PARAMETERS" then do
    let ps ← (lookupS fields "parameters").elim (.error "TypeError: missing parameters") parseStrList
    return .linkedParameters ps
  else if tag = "DEPENDENCIES" then do
    let d ← structureDependencies v
    return .dependencies d
  else if tag = "PERMUTATION_INVARIANCE" then do
    let ps ← (lookupS fields "parameters").elim (.error "TypeError: missing parameters") parseStrList
    let deps ← match lookupS fields "dependencies" with
      | some .null => pure (Option.none (α := DependenciesConstraint))
      | some w => (structureDependencies w).bind (fun dd => pure (some dd))
      | none => .error "TypeError: missing dependencies"
    return .permutationInvariance ⟨ps, deps⟩
  else if tag = "CUSTOM" then do
    let ps ← (lookupS fields "parameters").elim (.error "TypeError: missing parameters") parseStrList
    let vn ← (lookupS fields "validator").elim (.error "TypeError: missing validator") parseStr
    return .custom ps vn
  else .error (checkIfInMsg tag constraintTypes)

/-- `Constraint.create`: look up the `type` tag and dispatch, failing on an
unknown tag with an error naming the registered options. -/
def structureConstraint (v : SVal) : Except String Constraint :=
  match v with
  | .obj fields =>
    match lookupS fields "type" with
    | some (.s tag) => constraintDispatch v fields tag
    | _ => .error "KeyError: type"
  | _ => .error "TypeError: expected a mapping"

/-- Field-by-field equality of dependencies constraints in the `attrs`
sense: `permutation_invariant` is a class attribute, not a field, so it
does not take part in `__eq__`. -/
def depFieldsEq (a b : DependenciesConstraint) : Prop :=
  a.parameters = b.parameters ∧ a.conditions = b.conditions ∧
    a.affected_parameters = b.affected_parameters

/-- Field-by-field equality of constraints in the `attrs` sense. -/
def constraintFieldsEq : Constraint → Constraint → Prop
  | .dependencies a, .dependencies b => depFieldsEq a b
  | .permutationInvariance a, .permutationInvariance b =>
    a.parameters = b.parameters ∧
      (match a.dependencies, b.dependencies with
       | none, none => True
       | some x, some y => depFieldsEq x y
       | _, _ => False)
  | a, b => a = b

/-! ## Generic lemmas about masks, index selection and unions -/

theorem indexWhere_subset (ids : List Nat) (mask : List Bool) :
    ∀ i ∈ indexWhere ids mask, i ∈ ids := by
  intro i hi
  simp only [indexWhere, List.mem_filterMap] at hi
  obtain ⟨⟨a, b⟩, hmem, hif⟩ := hi
  have := List.of_mem_zip hmem
  by_cases hb : b = true
  · simp [hb] at hif
    exact hif ▸ this.1
  · simp [Bool.eq_false_iff.mpr hb] at hif

theorem mem_idxUnion (a b : List Nat) (i : Nat) :
    i ∈ idxUnion a b ↔ i ∈ a ∨ i ∈ b := by
  unfold idxUnion
  rw [(List.perm_insertionSort (α := ℕ) (· ≤ ·) ((a ++ b).dedup)).mem_iff]
  simp [List.mem_dedup]

theorem indexWhere_map {α : Type} (l : List α) (g : α → Nat) (f : α → Bool) :
    indexWhere (l.map g) (l.map f) =
      l.filterMap (fun e => if f e then some (g e) else none) := by
  unfold indexWhere
  rw [List.zip_map', List.filterMap_map]
  rfl

theorem indexWhere_nil_of_false {α : Type} (l : List α) (g : α → Nat) (f : α → Bool)
    (h : ∀ e ∈ l, f e = false) :
    indexWhere (l.map g) (l.map f) = [] := by
  rw [indexWhere_map, List.filterMap_eq_nil_iff]
  intro e he
  simp [h e he]

theorem dupMaskAux_length {β : Type} [DecidableEq β] :
    ∀ (l seen : List β), (dupMaskAux seen l).length = l.length := by
  intro l
  induction l with
  | nil => intro seen; rfl
  | cons x xs ih => intro seen; simp [dupMaskAux, ih]

theorem dupMaskAux_getD {β : Type} [DecidableEq β] (d : β) :
    ∀ (l seen : List β) (p : Nat), p < l.length →
      (((dupMaskAux seen l).getD p false = true) ↔
        (l.getD p d ∈ seen ∨ ∃ q, q < p ∧ l.getD q d = l.getD p d)) := by
  intro l
  induction l with
  | nil => intro seen p hp; simp at hp
  | cons x xs ih =>
    intro seen p hp
    cases p with
    | zero => simp [dupMaskAux]
    | succ p =>
      have hp' : p < xs.length := by simpa using hp
      simp only [dupMaskAux, List.getD_cons_succ]
      rw [ih (x :: seen) p hp']
      constructor
      · rintro (h | ⟨q, hq, heq⟩)
        · rcases List.mem_cons.mp h with h | h
          · exact Or.inr ⟨0, Nat.succ_pos p, by simpa using h.symm⟩
          · exact Or.inl h
        · exact Or.inr ⟨q + 1, by omega, by simpa using heq⟩
      · rintro (h | ⟨q, hq, heq⟩)
        · exact Or.inl (List.mem_cons_of_mem x h)
        · cases q with
          | zero => exact Or.inl (by simp at heq; simp [← heq])
          | succ q => exact Or.inr ⟨q, by omega, by simpa using heq⟩

theorem dupMask_getD {β : Type} [DecidableEq β] (d : β) (l : List β) (p : Nat)
    (hp : p < l.length) :
    ((dupMask l).getD p false = true) ↔ (∃ q, q < p ∧ l.getD q d = l.getD p d) := by
  rw [dupMask, dupMaskAux_getD d l [] p hp]
  simp

theorem dupMaskAux_false_of_nodup {β : Type} [DecidableEq β] :
    ∀ (l seen : List β), l.Nodup → (∀ x ∈ l, x ∉ seen) →
      ∀ b ∈ dupMaskAux seen l, b = false := by
  intro l
  induction l with
  | nil => intro seen _ _ b hb; simp [dupMaskAux] at hb
  | cons x xs ih =>
    intro seen hnd hdis b hb
    simp only [dupMaskAux, List.mem_cons] at hb
    rcases hb with hb | hb
    · simp [hb, hdis x (by simp)]
    · exact ih (x :: seen) (List.Nodup.of_cons hnd)
        (by
          intro y hy
          simp only [List.mem_cons, not_or]
          exact ⟨fun he => (List.nodup_cons.mp hnd).1 (he ▸ hy), hdis y (by simp [hy])⟩)
        b hb

/-- Keep the elements at the positions where the mask is false (the rows
surviving a `duplicated` pass). -/
def keepUnflagged {α : Type} : List α → List Bool → List α
  | l, [] => l
  | [], _ :: _ => []
  | x :: xs, b :: bs => if b then keepUnflagged xs bs else x :: keepUnflagged xs bs

theorem keepUnflagged_map {α β : Type} (f : α → β) :
    ∀ (l : List α) (m : List Bool),
      keepUnflagged (l.map f) m = (keepUnflagged l m).map f := by
  intro l
  induction l with
  | nil => intro m; cases m <;> rfl
  | cons x xs ih =>
    intro m
    cases m with
    | nil => rfl
    | cons b bs =>
      simp only [List.map_cons, keepUnflagged]
      by_cases hb : b = true
      · simp [hb, ih]
      · simp [Bool.eq_false_iff.mpr hb, ih]

theorem keepUnflagged_dupMaskAux_nodup {β : Type} [DecidableEq β] :
    ∀ (l seen : List β),
      (keepUnflagged l (dupMaskAux seen l)).Nodup ∧
        ∀ x ∈ keepUnflagged l (dupMaskAux seen l), x ∉ seen := by
  intro l
  induction l with
  | nil => intro seen; simp [dupMaskAux, keepUnflagged]
  | cons x xs ih =>
    intro seen
    simp only [dupMaskAux, keepUnflagged]
    by_cases hx : x ∈ seen
    · simp only [hx, decide_true_eq_true, if_true]
      refine ⟨(ih (x :: seen)).1, fun y hy => ?_⟩
      have := (ih (x :: seen)).2 y hy
      simp only [List.mem_cons, not_or] at this
      exact this.2
    · rw [if_neg (by simpa using hx)]
      constructor
      · rw [List.nodup_cons]
        refine ⟨fun hmem => ?_, (ih (x :: seen)).1⟩
        have := (ih (x :: seen)).2 x hmem
        simp at this
      · intro y hy
        rcases List.mem_cons.mp hy with rfl | hy'
        · exact hx
        · have := (ih (x :: seen)).2 y hy'
          simp only [List.mem_cons, not_or] at this
          exact this.2

theorem keepUnflagged_dupMask_nodup {β : Type} [DecidableEq β] (l : List β) :
    (keepUnflagged l (dupMask l)).Nodup :=
  (keepUnflagged_dupMaskAux_nodup l []).1

theorem filter_sublist_keepUnflagged {α : Type} (Q : α → Bool) :
    ∀ (l : List α) (mask : List Bool), mask.length = l.length →
      (∀ p (hp : p < l.length), Q (l.get ⟨p, hp⟩) = true → mask.getD p false = false) →
      List.Sublist (l.filter Q) (keepUnflagged l mask) := by
  intro l
  induction l with
  | nil => intro mask _ _; cases mask <;> simp [keepUnflagged]
  | cons x xs ih =>
    intro mask hlen hpt
    cases mask with
    | nil => simp at hlen
    | cons b bs =>
      have hlen' : bs.length = xs.length := by simpa using hlen
      have hrest : ∀ p (hp : p < xs.length), Q (xs.get ⟨p, hp⟩) = true →
          bs.getD p false = false := by
        intro p hp hq
        have := hpt (p + 1) (by simpa using Nat.succ_lt_succ hp) (by simpa using hq)
        simpa using this
      by_cases hb : b = true
      · have hqx : Q x = false := by
          cases hQx : Q x
          · rfl
          · have := hpt 0 (by simp) (by simpa using hQx)
            simp [hb] at this
        simp only [keepUnflagged, hb, if_true, List.filter_cons, hqx]
        exact ih bs hlen' hrest
      · simp only [keepUnflagged, Bool.eq_false_iff.mpr hb, if_false, List.filter_cons]
        by_cases hq : Q x = true
        · simp only [hq, if_true]
          exact List.Sublist.cons₂ x (ih bs hlen' hrest)
        · simp only [Bool.eq_false_iff.mpr hq, if_false]
          exact List.Sublist.cons x (ih bs hlen' hrest)

theorem indexWhere_cons (i : Nat) (is : List Nat) (b : Bool) (bs : List Bool) :
    indexWhere (i :: is) (b :: bs) =
      if b then i :: indexWhere is bs else indexWhere is bs := by
  cases b <;> rfl

theorem getD_mem_indexWhere :
    ∀ (ids : List Nat) (mask : List Bool) (p : Nat), p < ids.length → p < mask.length →
      mask.getD p false = true → ids.getD p 0 ∈ indexWhere ids mask := by
  intro ids
  induction ids with
  | nil => intro mask p hp; simp at hp
  | cons i is ih =>
    intro mask p hpi hpm hm
    cases mask with
    | nil => simp at hpm
    | cons b bs =>
      cases p with
      | zero =>
        simp only [List.getD_cons_zero] at hm
        simp [indexWhere_cons, hm]
      | succ p =>
        have hmem := ih bs p (by simpa using hpi) (by simpa using hpm) (by simpa using hm)
        simp only [List.getD_cons_succ]
        rw [indexWhere_cons]
        by_cases hb : b = true <;> simp [hb]
        · exact Or.inr (by simpa using hmem)
        · simpa using hmem

/-! ## Per-row reformulation of condition evaluation -/

/-- The per-cell function computed by a successful `Condition.evaluate`. -/
def condCell : Condition → Val → Bool
  | .threshold thr op tol =>
    if validToleranceOperators.contains op then thresholdCompare op thr (tol.getD 0)
    else thresholdCompare op thr 0
  | .subselection sel => subselectionContains sel

/-- The success precondition of `Condition.evaluate` on a column. -/
def condOk : Condition → List Val → Prop
  | .threshold _ op tol, col =>
    col.all Val.isNum = true ∧ (validToleranceOperators.contains op = true → tol ≠ none)
  | .subselection _, _ => True

theorem evaluate_ok_iff (cond : Condition) (col : List Val) (m : List Bool) :
    cond.evaluate col = .ok m ↔ condOk cond col ∧ m = col.map (condCell cond) := by
  cases cond with
  | threshold thr op tol =>
    simp only [Condition.evaluate, condOk, condCell]
    by_cases hnum : col.all Val.isNum = true
    · rw [if_pos hnum]
      by_cases htol : validToleranceOperators.contains op = true
      · rw [if_pos htol, if_pos htol]
        cases tol with
        | some tv =>
          simp only [Except.ok.injEq]
          constructor
          · intro h; exact ⟨⟨hnum, fun _ => Option.some_ne_none tv⟩, h.symm⟩
          · rintro ⟨_, rfl⟩; rfl
        | none =>
          constructor
          · intro h; exact Except.noConfusion h
          · rintro ⟨⟨_, h2⟩, _⟩; exact absurd rfl (h2 htol)
      · rw [if_neg htol, if_neg htol]
        simp only [Except.ok.injEq]
        constructor
        · intro h; exact ⟨⟨hnum, fun hc => absurd hc htol⟩, h.symm⟩
        · rintro ⟨_, rfl⟩; rfl
    · rw [if_neg hnum]
      constructor
      · intro h; exact Except.noConfusion h
      · rintro ⟨⟨h1, _⟩, _⟩; exact absurd h1 hnum
  | subselection sel =>
    simp only [Condition.evaluate, condOk, condCell, Except.ok.injEq, true_and]
    exact eq_comm

theorem condOk_subset (cond : Condition) (col col' : List Val)
    (hsub : ∀ v ∈ col', v ∈ col) (h : condOk cond col) : condOk cond col' := by
  cases cond with
  | threshold thr op tol =>
    obtain ⟨h1, h2⟩ := h
    refine ⟨?_, h2⟩
    simp only [List.all_eq_true] at h1 ⊢
    exact fun v hv => h1 v (hsub v hv)
  | subselection sel => trivial

/-! ## Per-row reformulation of the dependencies pipeline -/

/-- The per-row mask functions of the censoring loop (one per governing
parameter, paired positionally with its condition). -/
def maskFuns (cols : List String) : List String → List Condition → List ((Nat × Row) → Bool)
  | [], _ => []
  | _ :: _, [] => []
  | p :: pR, cond :: cR =>
    (fun e => condCell cond (cellAt cols p e.2)) :: maskFuns cols pR cR

/-- The censoring loop restricted to a single row. -/
def censorRowLoop (cols : List String) : Nat → List (List String) →
    List ((Nat × Row) → Bool) → (Nat × Row) → List CVal → List CVal
  | _, [], _, _, r => r
  | _, _ :: _, [], _, r => r
  | k, aff :: affR, f :: fR, e, r =>
    censorRowLoop cols (k + 1) affR fR e (censorRow (aff.map cols.indexOf) k (f e) r)

/-- The invariant-indicator loop restricted to a single row. -/
def zipRowLoop (cols : List String) : List String → List (List String) →
    List CVal → List CVal
  | [], _, r => r
  | _ :: _, [], r => r
  | p :: pR, aff :: affR, r =>
    zipRowLoop cols pR affR
      (aff.foldl (fun rr a => zipRow (cols.indexOf p) (cols.indexOf a) rr) r)

/-- The signature of a single row as computed by
`DependenciesConstraint.sigs`. -/
def depRowFull (c : DependenciesConstraint) (cols : List String) (e : Nat × Row) :
    List CVal × (Multiset CVal ⊕ List CVal) :=
  depRowSig cols (c.otherParams cols) c.affected_parameters.flatten c.permutation_invariant
    (zipRowLoop cols c.parameters c.affected_parameters
      (censorRowLoop cols 0 c.affected_parameters
        (maskFuns cols c.parameters c.conditions) e (e.2.map CVal.base)))

theorem zipWith_map_same {α β γ δ : Type} (h : β → γ → δ) (f : α → β) (g : α → γ) :
    ∀ l : List α, List.zipWith h (l.map f) (l.map g) = l.map (fun x => h (f x) (g x)) := by
  intro l
  induction l with
  | nil => rfl
  | cons x xs ih => simp [ih]

theorem censorLoop_map (cols : List String) :
    ∀ (affs : List (List String)) (fs : List ((Nat × Row) → Bool)) (k : Nat)
      (l : List (Nat × Row)) (g : (Nat × Row) → List CVal),
      censorLoop cols k affs (fs.map (fun f => l.map f)) (l.map g) =
        l.map (fun e => censorRowLoop cols k affs fs e (g e)) := by
  intro affs
  induction affs with
  | nil => intro fs k l g; cases fs <;> rfl
  | cons aff affR ih =>
    intro fs k l g
    cases fs with
    | nil => rfl
    | cons f fR =>
      simp only [List.map_cons, censorLoop, censorRowLoop]
      rw [zipWith_map_same, ih]

theorem foldl_map_same {α β σ : Type} (h : σ → β → β) :
    ∀ (xs : List σ) (l : List α) (g : α → β),
      xs.foldl (fun rs a => rs.map (h a)) (l.map g) =
        l.map (fun e => xs.foldl (fun r a => h a r) (g e)) := by
  intro xs
  induction xs with
  | nil => intro l g; rfl
  | cons x xR ih =>
    intro l g
    simp only [List.foldl_cons]
    rw [List.map_map, ih]
    rfl

theorem zipLoop_map (cols : List String) :
    ∀ (ps : List String) (affs : List (List String)) (l : List (Nat × Row))
      (g : (Nat × Row) → List CVal),
      zipLoop cols ps affs (l.map g) =
        l.map (fun e => zipRowLoop cols ps affs (g e)) := by
  intro ps
  induction ps with
  | nil => intro affs l g; rfl
  | cons p pR ih =>
    intro affs l g
    cases affs with
    | nil => rfl
    | cons aff affR =>
      simp only [zipLoop, zipRowLoop]
      rw [foldl_map_same, ih]

theorem col_ok_iff (t : Table) (c : String) (l : List Val) :
    t.col c = .ok l ↔
      t.columns.contains c = true ∧ l = t.entries.map (fun e => cellAt t.columns c e.2) := by
  unfold Table.col
  by_cases hc : t.columns.contains c = true
  · rw [if_pos hc]
    simp only [Except.ok.injEq]
    constructor
    · intro h; exact ⟨hc, h.symm⟩
    · rintro ⟨_, rfl⟩; rfl
  · rw [if_neg hc]
    constructor
    · intro h; exact Except.noConfusion h
    · rintro ⟨h1, _⟩; exact absurd h1 hc

theorem depMasks_props :
    ∀ (ps : List String) (cs : List Condition) (t : Table) (ms : List (List Bool)),
      depMasks t ps cs = .ok ms →
      ms = (maskFuns t.columns ps cs).map (fun f => t.entries.map f) ∧
      ∀ P : (Nat × Row) → Bool,
        depMasks ⟨t.columns, t.entries.filter P⟩ ps cs =
          .ok ((maskFuns t.columns ps cs).map (fun f => (t.entries.filter P).map f)) := by
  intro ps
  induction ps with
  | nil =>
    intro cs t ms h
    simp only [depMasks] at h
    refine ⟨by simpa [maskFuns] using h.symm, fun P => by simp [depMasks, maskFuns]⟩
  | cons p pR ih =>
    intro cs t ms h
    cases cs with
    | nil =>
      simp only [depMasks] at h
      exact Except.noConfusion h
    | cons cond cR =>
      simp only [depMasks] at h
      cases hcol : t.col p with
      | error e =>
        rw [hcol] at h
        simp only [bind, Except.bind] at h
        exact Except.noConfusion h
      | ok colv =>
        rw [hcol] at h
        simp only [bind, Except.bind] at h
        cases heval : cond.evaluate colv with
        | error e =>
          rw [heval] at h
          exact Except.noConfusion h
        | ok m =>
          rw [heval] at h
          cases hrest : depMasks t pR cR with
          | error e =>
            rw [hrest] at h
            exact Except.noConfusion h
          | ok rest =>
            rw [hrest] at h
            simp only [pure, Except.pure, Except.ok.injEq] at h
            obtain ⟨hcontains, hcolv⟩ := (col_ok_iff t p colv).mp hcol
            obtain ⟨hok, hm⟩ := (evaluate_ok_iff cond colv m).mp heval
            obtain ⟨ihshape, ihfilter⟩ := ih cR t rest hrest
            constructor
            · rw [← h, hm, hcolv, List.map_map]
              simp [maskFuns, ihshape]
            · intro P
              simp only [depMasks]
              have hcol' : Table.col ⟨t.columns, t.entries.filter P⟩ p =
                  .ok ((t.entries.filter P).map (fun e => cellAt t.columns p e.2)) := by
                rw [col_ok_iff]
                exact ⟨hcontains, rfl⟩
              rw [hcol']
              simp only [bind, Except.bind]
              have hsub : ∀ v ∈ (t.entries.filter P).map (fun e => cellAt t.columns p e.2),
                  v ∈ colv := by
                intro v hv
                rw [hcolv]
                simp only [List.mem_map] at hv ⊢
                obtain ⟨e, he, hev⟩ := hv
                exact ⟨e, List.mem_of_mem_filter he, hev⟩
              have heval' : cond.evaluate ((t.entries.filter P).map
                  (fun e => cellAt t.columns p e.2)) =
                  .ok (((t.entries.filter P).map (fun e => cellAt t.columns p e.2)).map
                    (condCell cond)) :=
                (evaluate_ok_iff _ _ _).mpr ⟨condOk_subset cond colv _ hsub hok, rfl⟩
              rw [heval']
              rw [ihfilter P]
              simp [maskFuns, List.map_map]
              rfl

theorem dep_sigs_props (c : DependenciesConstraint) (t : Table)
    (s : List (List CVal × (Multiset CVal ⊕ List CVal))) (h : c.sigs t = .ok s) :
    s = t.entries.map (depRowFull c t.columns) ∧
    ∀ P : (Nat × Row) → Bool,
      c.sigs ⟨t.columns, t.entries.filter P⟩ =
        .ok ((t.entries.filter P).map (depRowFull c t.columns)) := by
  simp only [DependenciesConstraint.sigs] at h ⊢
  cases hms : depMasks t c.parameters c.conditions with
  | error e =>
    rw [hms] at h
    simp only [bind, Except.bind] at h
    exact Except.noConfusion h
  | ok ms =>
    rw [hms] at h
    simp only [bind, Except.bind, pure, Except.pure, Except.ok.injEq] at h
    obtain ⟨hshape, hfilter⟩ := depMasks_props _ _ _ _ hms
    constructor
    · rw [← h, hshape, censorLoop_map, zipLoop_map, List.map_map]
      rfl
    · intro P
      rw [hfilter P]
      simp only [bind, Except.bind, pure, Except.pure, Except.ok.injEq]
      rw [censorLoop_map, zipLoop_map, List.map_map]
      rfl

theorem dep_get_invalid_of_sigs (c : DependenciesConstraint) (t : Table)
    (s : List (List CVal × (Multiset CVal ⊕ List CVal))) (h : c.sigs t = .ok s) :
    c.get_invalid t = .ok (indexWhere t.rowIds (dupMask s)) := by
  simp only [DependenciesConstraint.get_invalid]
  rw [h]
  rfl

theorem dep_get_invalid_elim (c : DependenciesConstraint) (t : Table) (out : List Nat)
    (h : c.get_invalid t = .ok out) :
    ∃ s, c.sigs t = .ok s ∧ out = indexWhere t.rowIds (dupMask s) := by
  simp only [DependenciesConstraint.get_invalid] at h
  cases hs : c.sigs t with
  | error e =>
    rw [hs] at h
    simp only [bind, Except.bind] at h
    exact Except.noConfusion h
  | ok s =>
    rw [hs] at h
    simp only [bind, Except.bind, pure, Except.pure, Except.ok.injEq] at h
    exact ⟨s, rfl, h.symm⟩

/-- The per-row predicate underlying `NoLabelDuplicatesConstraint`. -/
def labelDupPred (cols params : List String) (e : Nat × Row) : Bool :=
  decide (rowNUnique (selectVals cols params e.2) ≠ params.length)

theorem noLabelDup_ok_iff (params : List String) (t : Table) (l : List Nat) :
    noLabelDuplicatesGetInvalid params t = .ok l ↔
      params.all t.columns.contains = true ∧
        l = indexWhere t.rowIds (t.entries.map (labelDupPred t.columns params)) := by
  unfold noLabelDuplicatesGetInvalid labelDupPred
  by_cases hc : params.all t.columns.contains = true
  · rw [if_pos hc]
    simp only [Except.ok.injEq]
    constructor
    · intro h; exact ⟨hc, h.symm⟩
    · rintro ⟨_, rfl⟩; rfl
  · rw [if_neg hc]
    constructor
    · intro h; exact Except.noConfusion h
    · rintro ⟨h1, _⟩; exact absurd h1 hc

theorem permInvStage12_elim (params : List String) (t : Table) (inds : List Nat)
    (h : permInvStage12 params t = .ok inds) :
    ∃ s1, noLabelDuplicatesGetInvalid params t = .ok s1 ∧
      inds = idxUnion
        (t.entries.filterMap (fun e => if s1.contains e.1 then some e.1 else none))
        (indexWhere ((t.entries.filter (fun e => !(s1.contains e.1))).map Prod.fst)
          (dupMask ((t.entries.filter (fun e => !(s1.contains e.1))).map
            (fun e => permInvSig t.columns params
              (t.columns.filter (fun c => !(params.contains c))) e.2)))) := by
  simp only [permInvStage12] at h
  cases h1 : noLabelDuplicatesGetInvalid params t with
  | error e =>
    rw [h1] at h
    simp only [bind, Except.bind] at h
    exact Except.noConfusion h
  | ok s1 =>
    rw [h1] at h
    simp only [bind, Except.bind, pure, Except.pure, Except.ok.injEq] at h
    exact ⟨s1, rfl, h.symm⟩

/-! ## Claim theorems -/

/-- C6: for a `ThresholdCondition` with operator `==` and tolerance `t`,
`evaluate` on a single numeric value `x` returns true iff
`|x - threshold| ≤ t`; with `!=` it returns the exact negation; and the
comparisons for `<`, `<=`, `>`, `>=` are exact, with no tolerance
applied whatever the tolerance field holds. -/
theorem claim_C6_threshold_tolerance (x thr t : ℚ) :
    ((Condition.threshold thr "==" (some t)).evaluate [Val.num x] =
      .ok [decide (|x - thr| ≤ t)]) ∧
    ((Condition.threshold thr "!=" (some t)).evaluate [Val.num x] =
      .ok [!decide (|x - thr| ≤ t)]) ∧
    ∀ tol : Option ℚ,
      ((Condition.threshold thr "<" tol).evaluate [Val.num x] = .ok [decide (x < thr)]) ∧
      ((Condition.threshold thr "<=" tol).evaluate [Val.num x] = .ok [decide (x ≤ thr)]) ∧
      ((Condition.threshold thr ">" tol).evaluate [Val.num x] = .ok [decide (thr < x)]) ∧
      ((Condition.threshold thr ">=" tol).evaluate [Val.num x] = .ok [decide (thr ≤ x)]) :=
  ⟨rfl, rfl, fun _ => ⟨rfl, rfl, rfl, rfl⟩⟩

theorem dropIds_rowIds_subset (t : Table) (ids : List Nat) :
    ∀ i ∈ (t.dropIds ids).rowIds, i ∈ t.rowIds := by
  intro i hi
  simp only [Table.dropIds, Table.rowIds, List.mem_map] at hi ⊢
  obtain ⟨e, he, hei⟩ := hi
  exact ⟨e, List.mem_of_mem_filter he, hei⟩

theorem dep_get_invalid_subset (c : DependenciesConstraint) (t : Table) (out : List Nat)
    (h : c.get_invalid t = .ok out) : ∀ i ∈ out, i ∈ t.rowIds := by
  obtain ⟨s, _, rfl⟩ := dep_get_invalid_elim c t out h
  exact indexWhere_subset _ _

theorem permInvStage12_subset (params : List String) (t : Table) (inds : List Nat)
    (h : permInvStage12 params t = .ok inds) : ∀ i ∈ inds, i ∈ t.rowIds := by
  obtain ⟨s1, _, rfl⟩ := permInvStage12_elim params t inds h
  intro i hi
  rw [mem_idxUnion] at hi
  rcases hi with hi | hi
  · simp only [List.mem_filterMap] at hi
    obtain ⟨e, he, hif⟩ := hi
    by_cases hc : s1.contains e.1 = true
    · rw [if_pos hc] at hif
      simp only [Option.some.injEq] at hif
      simp only [Table.rowIds, List.mem_map]
      exact ⟨e, he, hif⟩
    · rw [if_neg hc] at hif
      exact Option.noConfusion hif
  · have := indexWhere_subset _ _ i hi
    simp only [List.mem_map] at this
    obtain ⟨e, he, hei⟩ := this
    simp only [Table.rowIds, List.mem_map]
    exact ⟨e, List.mem_of_mem_filter he, hei⟩

theorem permInv_get_invalid_subset (c : PermutationInvarianceConstraint) (t : Table)
    (out : List Nat) (h : c.get_invalid t = .ok out) : ∀ i ∈ out, i ∈ t.rowIds := by
  unfold PermutationInvarianceConstraint.get_invalid
    PermutationInvarianceConstraint.get_invalid_step at h
  split at h
  · exact Except.noConfusion h
  · rename_i inds h12
    split at h
    · simp only [Except.ok.injEq] at h
      exact h ▸ permInvStage12_subset c.parameters t inds h12
    · rename_i d hd
      split at h
      · exact Except.noConfusion h
      · rename_i more hmore
        simp only [Except.ok.injEq] at h
        intro i hi
        rw [← h, mem_idxUnion] at hi
        rcases hi with hi | hi
        · exact permInvStage12_subset c.parameters t inds h12 i hi
        · exact dropIds_rowIds_subset t inds i
            (dep_get_invalid_subset _ _ _ hmore i hi)

theorem ifSome_ok_subset (params : List String) (t : Table) (out : List Nat)
    (f : (Nat × Row) → Bool)
    (h : (if params.all t.columns.contains then
        Except.ok (indexWhere t.rowIds (t.entries.map f))
      else Except.error "KeyError: missing parameter column") = .ok out) :
    ∀ i ∈ out, i ∈ t.rowIds := by
  by_cases hc : params.all t.columns.contains = true
  · rw [if_pos hc] at h
    simp only [Except.ok.injEq] at h
    exact h ▸ indexWhere_subset _ _
  · rw [if_neg hc] at h
    exact Except.noConfusion h

/-- C5: for every constraint variant and every candidate table, every row
identifier returned by `get_invalid` is one of the table's own row
identifiers.  (In the embedding `get_invalid` is a pure function of the
table — it cannot mutate or reorder the input, matching the contract.) -/
theorem claim_C5_get_invalid_subset (env : String → List Val → Bool)
    (c : Constraint) (t : Table) (out : List Nat)
    (h : Constraint.get_invalid env c t = .ok out) : ∀ i ∈ out, i ∈ t.rowIds := by
  cases c with
  | exclude c =>
    simp only [Constraint.get_invalid, ExcludeConstraint.get_invalid] at h
    cases hsat : excludeSatisfied t c.parameters c.conditions with
    | error e =>
      rw [hsat] at h
      simp only [bind, Except.bind] at h
      exact Except.noConfusion h
    | ok sats =>
      rw [hsat] at h
      simp only [bind, Except.bind] at h
      cases sats with
      | nil => exact Except.noConfusion h
      | cons m ms =>
        simp only [pure, Except.pure, Except.ok.injEq] at h
        exact h ▸ indexWhere_subset _ _
  | sum ps cond =>
    simp only [Constraint.get_invalid, sumGetInvalid] at h
    by_cases hc : ps.all t.columns.contains = true
    · rw [if_pos hc] at h
      cases hev : cond.evaluate (t.entries.map
          (fun e => rowAgg (· + ·) 0 (selectVals t.columns ps e.2))) with
      | error e =>
        rw [hev] at h
        simp only [bind, Except.bind] at h
        exact Except.noConfusion h
      | ok sat =>
        rw [hev] at h
        simp only [bind, Except.bind, pure, Except.pure, Except.ok.injEq] at h
        exact h ▸ indexWhere_subset _ _
    · rw [if_neg hc] at h
      exact Except.noConfusion h
  | product ps cond =>
    simp only [Constraint.get_invalid, productGetInvalid] at h
    by_cases hc : ps.all t.columns.contains = true
    · rw [if_pos hc] at h
      cases hev : cond.evaluate (t.entries.map
          (fun e => rowAgg (· * ·) 1 (selectVals t.columns ps e.2))) with
      | error e =>
        rw [hev] at h
        simp only [bind, Except.bind] at h
        exact Except.noConfusion h
      | ok sat =>
        rw [hev] at h
        simp only [bind, Except.bind, pure, Except.pure, Except.ok.injEq] at h
        exact h ▸ indexWhere_subset _ _
    · rw [if_neg hc] at h
      exact Except.noConfusion h
  | noLabelDuplicates ps =>
    exact ifSome_ok_subset ps t out _ h
  | linkedParameters ps =>
    exact ifSome_ok_subset ps t out _ h
  | dependencies c =>
    exact dep_get_invalid_subset c t out h
  | permutationInvariance c =>
    exact permInv_get_invalid_subset c t out h
  | custom ps v =>
    exact ifSome_ok_subset ps t out _ h

/-! ## Boolean mask reduction lemmas (for the exclude constraint) -/

theorem foldl_and_eq (bs : List Bool) (b : Bool) : bs.foldl and b = (b && bs.all id) := by
  induction bs generalizing b with
  | nil => simp
  | cons h t ih => simp [ih, Bool.and_assoc]

theorem foldl_or_eq (bs : List Bool) (b : Bool) : bs.foldl or b = (b || bs.any id) := by
  induction bs generalizing b with
  | nil => simp
  | cons h t ih => simp [ih, Bool.or_assoc]

theorem foldl_xor_eq (bs : List Bool) (b : Bool) :
    bs.foldl xor b = (b ^^ decide (Odd (bs.countP id))) := by
  induction bs generalizing b with
  | nil => simp
  | cons h t ih =>
    simp only [List.foldl_cons, ih, List.countP_cons]
    cases h
    · simp
    · have h1 : (if id true = true then 1 else 0) = 1 := rfl
      rw [h1]
      simp only [Nat.odd_add_one, decide_not]
      cases decide (Odd (t.countP id)) <;> cases b <;> rfl

theorem parity_bridge (c : Nat) (b : Bool) :
    (b ^^ decide (Odd c)) = true ↔ Odd (c + if b then 1 else 0) := by
  cases b
  · simp
  · rw [if_pos rfl, Nat.odd_add_one]
    simp

theorem getD_zipWith (f : Bool → Bool → Bool) (a b : List Bool) (p : Nat)
    (ha : p < a.length) (hb : p < b.length) :
    (List.zipWith f a b).getD p false = f (a.getD p false) (b.getD p false) := by
  have hz : p < (List.zipWith f a b).length := by
    rw [List.length_zipWith]; omega
  rw [List.getD_eq_getElem _ _ hz, List.getD_eq_getElem _ _ ha, List.getD_eq_getElem _ _ hb]
  exact List.getElem_zipWith

theorem foldl_zipWith_getD (f : Bool → Bool → Bool) (L : Nat) :
    ∀ (ms : List (List Bool)) (m0 : List Bool), m0.length = L →
      (∀ m ∈ ms, m.length = L) → ∀ p, p < L →
      (ms.foldl (fun acc m2 => acc.zipWith f m2) m0).getD p false =
        (ms.map (fun m2 => m2.getD p false)).foldl f (m0.getD p false) := by
  intro ms
  induction ms with
  | nil => intro m0 _ _ p _; rfl
  | cons m mR ih =>
    intro m0 h0 hall p hp
    simp only [List.foldl_cons, List.map_cons]
    have hm : m.length = L := hall m (by simp)
    have hzip : (List.zipWith f m0 m).length = L := by
      rw [List.length_zipWith]; omega
    rw [ih (List.zipWith f m0 m) hzip (fun mm hmm => hall mm (by simp [hmm])) p hp,
      getD_zipWith f m0 m p (by omega) (by omega)]

theorem foldl_zipWith_length (f : Bool → Bool → Bool) (L : Nat) :
    ∀ (ms : List (List Bool)) (m0 : List Bool), m0.length = L →
      (∀ m ∈ ms, m.length = L) →
      (ms.foldl (fun acc m2 => acc.zipWith f m2) m0).length = L := by
  intro ms
  induction ms with
  | nil => intro m0 h0 _; simpa using h0
  | cons mm mR ih =>
    intro m0 h0 hall
    simp only [List.foldl_cons]
    refine ih (List.zipWith f m0 mm) ?_ (fun x hx => hall x (by simp [hx]))
    rw [List.length_zipWith, h0, hall mm (by simp)]
    simp

theorem getD_mem_indexWhere_iff :
    ∀ (ids : List Nat) (mask : List Bool), mask.length = ids.length → ids.Nodup →
      ∀ p, p < ids.length →
      (ids.getD p 0 ∈ indexWhere ids mask ↔ mask.getD p false = true) := by
  intro ids
  induction ids with
  | nil => intro mask _ _ p hp; simp at hp
  | cons i is ih =>
    intro mask hlen hnd p hp
    cases mask with
    | nil => simp at hlen
    | cons b bs =>
      have hlen' : bs.length = is.length := by simpa using hlen
      rw [indexWhere_cons]
      cases p with
      | zero =>
        simp only [List.getD_cons_zero]
        by_cases hb : b = true
        · simp [hb]
        · simp only [Bool.eq_false_iff.mpr hb, if_false]
          constructor
          · intro hmem
            have := indexWhere_subset is bs i hmem
            exact absurd this (List.nodup_cons.mp hnd).1
          · intro hfalse
            exact absurd hfalse (by simp [Bool.eq_false_iff.mpr hb])
      | succ p =>
        have hp' : p < is.length := by simpa using hp
        have hgd : is.getD p 0 ∈ is := by
          rw [List.getD_eq_getElem _ _ hp']
          exact List.getElem_mem hp'
        have hne : is.getD p 0 ≠ i := by
          intro he
          exact absurd (he ▸ hgd) (List.nodup_cons.mp hnd).1
        simp only [List.getD_cons_succ]
        by_cases hb : b = true
        · rw [if_pos hb, List.mem_cons]
          rw [ih bs hlen' (List.nodup_cons.mp hnd).2 p hp']
          constructor
          · rintro (he | hm)
            · exact absurd he hne
            · exact hm
          · intro hm; exact Or.inr hm
        · rw [if_neg hb]
          exact ih bs hlen' (List.nodup_cons.mp hnd).2 p hp'

theorem excludeSatisfied_lengths :
    ∀ (ps : List String) (cs : List Condition) (t : Table) (sats : List (List Bool)),
      excludeSatisfied t ps cs = .ok sats → ∀ m ∈ sats, m.length = t.entries.length := by
  intro ps
  induction ps with
  | nil =>
    intro cs t sats h m hm
    cases cs with
    | nil =>
      simp only [excludeSatisfied] at h
      simp only [Except.ok.injEq] at h
      rw [← h] at hm
      simp at hm
    | cons c cR =>
      simp only [excludeSatisfied] at h
      exact Except.noConfusion h
  | cons p pR ih =>
    intro cs t sats h m hm
    cases cs with
    | nil =>
      simp only [excludeSatisfied] at h
      simp only [Except.ok.injEq] at h
      rw [← h] at hm
      simp at hm
    | cons cond cR =>
      simp only [excludeSatisfied] at h
      cases hcol : t.col p with
      | error e =>
        rw [hcol] at h
        simp only [bind, Except.bind] at h
        exact Except.noConfusion h
      | ok colv =>
        rw [hcol] at h
        simp only [bind, Except.bind] at h
        cases heval : cond.evaluate colv with
        | error e =>
          rw [heval] at h
          exact Except.noConfusion h
        | ok mm =>
          rw [heval] at h
          cases hrest : excludeSatisfied t pR cR with
          | error e =>
            rw [hrest] at h
            exact Except.noConfusion h
          | ok rest =>
            rw [hrest] at h
            simp only [pure, Except.pure, Except.ok.injEq] at h
            rw [← h] at hm
            rcases List.mem_cons.mp hm with rfl | hm'
            · obtain ⟨_, hcolv⟩ := (col_ok_iff t p colv).mp hcol
              obtain ⟨_, hmm⟩ := (evaluate_ok_iff cond colv m).mp heval
              rw [hmm, hcolv]
              simp
            · exact ih cR t rest hrest m hm'

/-- C7: `ExcludeConstraint.get_invalid` pairs conditions positionally with
parameter columns and reduces the masks pairwise with the combiner: a row
is invalid exactly when all of its per-condition results are true (AND),
at least one is true (OR), or an odd number are true (XOR). -/
theorem claim_C7_exclude_combiners (c : ExcludeConstraint) (t : Table)
    (sats : List (List Bool)) (out : List Nat) (p : Nat)
    (hsat : excludeSatisfied t c.parameters c.conditions = .ok sats)
    (hout : c.get_invalid t = .ok out)
    (hnd : t.rowIds.Nodup) (hp : p < t.entries.length) :
    (c.combiner = "AND" →
      (t.rowIds.getD p 0 ∈ out ↔ ∀ m ∈ sats, m.getD p false = true)) ∧
    (c.combiner = "OR" →
      (t.rowIds.getD p 0 ∈ out ↔ ∃ m ∈ sats, m.getD p false = true)) ∧
    (c.combiner = "XOR" →
      (t.rowIds.getD p 0 ∈ out ↔ Odd (sats.countP (fun m => m.getD p false)))) := by
  simp only [ExcludeConstraint.get_invalid] at hout
  rw [hsat] at hout
  simp only [bind, Except.bind] at hout
  cases sats with
  | nil => exact Except.noConfusion hout
  | cons m ms =>
    simp only [pure, Except.pure, Except.ok.injEq] at hout
    have hlens := excludeSatisfied_lengths c.parameters c.conditions t (m :: ms) hsat
    have hm : m.length = t.entries.length := hlens m (by simp)
    have hmsl : ∀ mm ∈ ms, mm.length = t.entries.length := fun mm hmm => hlens mm (by simp [hmm])
    have hidl : t.rowIds.length = t.entries.length := by simp [Table.rowIds]
    have hmaskl : (ms.foldl (fun acc m2 => acc.zipWith (combFn c.combiner) m2) m).length =
        t.entries.length := foldl_zipWith_length _ _ ms m hm hmsl
    have hmem : t.rowIds.getD p 0 ∈ out ↔
        (ms.foldl (fun acc m2 => acc.zipWith (combFn c.combiner) m2) m).getD p false = true := by
      rw [← hout]
      exact getD_mem_indexWhere_iff t.rowIds _ (by rw [hmaskl, hidl]) hnd p (by rw [hidl]; exact hp)
    have hfold := foldl_zipWith_getD (combFn c.combiner) t.entries.length ms m hm hmsl p hp
    refine ⟨?_, ?_, ?_⟩
    · intro hcomb
      rw [hmem, hfold, hcomb]
      have : combFn "AND" = and := rfl
      rw [this, foldl_and_eq]
      simp only [Bool.and_eq_true, List.all_eq_true, List.mem_map, id]
      constructor
      · rintro ⟨h1, h2⟩ mm hmm
        rcases List.mem_cons.mp hmm with rfl | hmm'
        · exact h1
        · exact h2 _ ⟨mm, hmm', rfl⟩
      · intro hall
        exact ⟨hall m (by simp), by rintro x ⟨mm, hmm, rfl⟩; exact hall mm (by simp [hmm])⟩
    · intro hcomb
      rw [hmem, hfold, hcomb]
      have : combFn "OR" = or := rfl
      rw [this, foldl_or_eq]
      simp only [Bool.or_eq_true, List.any_eq_true, List.mem_map, id]
      constructor
      · rintro (h1 | ⟨x, ⟨mm, hmm, rfl⟩, hx⟩)
        · exact ⟨m, by simp, h1⟩
        · exact ⟨mm, by simp [hmm], hx⟩
      · rintro ⟨mm, hmm, hx⟩
        rcases List.mem_cons.mp hmm with rfl | hmm'
        · exact Or.inl hx
        · exact Or.inr ⟨mm.getD p false, ⟨mm, hmm', rfl⟩, hx⟩
    · intro hcomb
      rw [hmem, hfold, hcomb]
      have : combFn "XOR" = xor := rfl
      rw [this, foldl_xor_eq]
      rw [List.countP_cons]
      have hcnt : (ms.map (fun m2 => m2.getD p false)).countP id =
          ms.countP (fun m2 => m2.getD p false) := by
        rw [List.countP_map]
        rfl
      rw [hcnt]
      rw [Nat.add_comm (List.countP (fun m2 => m2.getD p false) ms)] at *
      rw [parity_bridge]
      rw [Nat.add_comm]

theorem excludeSatisfied_take :
    ∀ (cs : List Condition) (ps : List String) (t : Table), cs.length ≤ ps.length →
      excludeSatisfied t ps cs = excludeSatisfied t (ps.take cs.length) cs := by
  intro cs
  induction cs with
  | nil => intro ps t _; cases ps <;> rfl
  | cons cond cR ih =>
    intro ps t hle
    cases ps with
    | nil => simp at hle
    | cons p pR =>
      simp only [List.length_cons, List.take_succ_cons, excludeSatisfied]
      have hle' : cR.length ≤ pR.length := by simpa using hle
      rw [ih pR t hle']

theorem excludeSatisfied_err :
    ∀ (cs : List Condition) (ps : List String) (t : Table), ps.length < cs.length →
      ∃ e, excludeSatisfied t ps cs = .error e := by
  intro cs
  induction cs with
  | nil => intro ps t h; simp at h
  | cons cond cR ih =>
    intro ps t h
    cases ps with
    | nil => exact ⟨_, rfl⟩
    | cons p pR =>
      simp only [excludeSatisfied]
      cases hcol : t.col p with
      | error e => exact ⟨e, by simp [bind, Except.bind]⟩
      | ok colv =>
        simp only [bind, Except.bind]
        cases heval : cond.evaluate colv with
        | error e => exact ⟨e, rfl⟩
        | ok m =>
          obtain ⟨e, he⟩ := ih pR t (by simpa using h)
          rw [he]
          exact ⟨e, rfl⟩

/-- C9: `ExcludeConstraint` construction performs no check relating the
lengths of `conditions` and `parameters`: (1) construction succeeds for any
relative lengths; (2) with fewer conditions than parameters, `get_invalid`
only ever reads the first `len(conditions)` parameter columns; (3) with
more conditions than parameters, `get_invalid` never succeeds at call
time; and (4) the failure is an out-of-range parameter lookup. -/
theorem claim_C9_exclude_length_mismatch :
    (∀ (ps : List String) (cs : List Condition) (comb : String),
      ps.Nodup → 1 ≤ cs.length → comb ∈ validLogicCombiners →
      mkExcludeConstraint ps cs comb = .ok ⟨ps, cs, comb⟩) ∧
    (∀ (ps : List String) (cs : List Condition) (comb : String) (t : Table),
      cs.length ≤ ps.length →
      ExcludeConstraint.get_invalid ⟨ps, cs, comb⟩ t =
        ExcludeConstraint.get_invalid ⟨ps.take cs.length, cs, comb⟩ t) ∧
    (∀ (ps : List String) (cs : List Condition) (comb : String) (t : Table),
      ps.length < cs.length →
      ∀ out, ExcludeConstraint.get_invalid ⟨ps, cs, comb⟩ t ≠ .ok out) ∧
    (ExcludeConstraint.get_invalid
        ⟨["p1"], [.subselection ["A"], .subselection ["B"]], "AND"⟩
        ⟨["p1"], [(0, [Val.str "A"])]⟩ =
      .error "IndexError: list index out of range") := by
  refine ⟨?_, ?_, ?_, rfl⟩
  · intro ps cs comb hnd hcs hcomb
    unfold mkExcludeConstraint
    rw [if_neg (by rw [List.dedup_eq_self.mpr hnd]; simp),
      if_neg (by omega), if_neg (by simpa using hcomb)]
  · intro ps cs comb t hle
    simp only [ExcludeConstraint.get_invalid]
    rw [excludeSatisfied_take cs ps t hle]
  · intro ps cs comb t hlt out
    obtain ⟨e, he⟩ := excludeSatisfied_err cs ps t hlt
    simp only [ExcludeConstraint.get_invalid]
    rw [he]
    simp [bind, Except.bind]

/-- The per-row predicate underlying `LinkedParametersConstraint`. -/
def linkedPred (cols params : List String) (e : Nat × Row) : Bool :=
  decide (rowNUnique (selectVals cols params e.2) ≠ 1)

theorem linked_ok_iff (params : List String) (t : Table) (l : List Nat) :
    linkedParametersGetInvalid params t = .ok l ↔
      params.all t.columns.contains = true ∧
        l = indexWhere t.rowIds (t.entries.map (linkedPred t.columns params)) := by
  unfold linkedParametersGetInvalid linkedPred
  by_cases hc : params.all t.columns.contains = true
  · rw [if_pos hc]
    simp only [Except.ok.injEq]
    constructor
    · intro h; exact ⟨hc, h.symm⟩
    · rintro ⟨_, rfl⟩; rfl
  · rw [if_neg hc]
    constructor
    · intro h; exact Except.noConfusion h
    · rintro ⟨h1, _⟩; exact absurd h1 hc

theorem fst_nodup_unique {α : Type} :
    ∀ (l : List (Nat × α)), (l.map Prod.fst).Nodup →
      ∀ (i : Nat) (a b : α), (i, a) ∈ l → (i, b) ∈ l → a = b := by
  intro l
  induction l with
  | nil => intro _ i a b ha; simp at ha
  | cons x xs ih =>
    intro hnd i a b ha hb
    have hnd' : (x.1 :: xs.map Prod.fst).Nodup := by simpa using hnd
    have hx : x.1 ∉ xs.map Prod.fst := (List.nodup_cons.mp hnd').1
    rcases List.mem_cons.mp ha with rfl | ha' <;> rcases List.mem_cons.mp hb with hb' | hb'
    · simpa using congrArg Prod.snd hb'.symm
    · exact absurd (List.mem_map.mpr ⟨(i, b), hb', rfl⟩) hx
    · rw [← hb'] at hx
      exact absurd (List.mem_map.mpr ⟨(i, a), ha', rfl⟩) hx
    · exact ih (List.nodup_cons.mp hnd').2 i a b ha' hb'

theorem rowNUnique_lt_of_na (vs : List Val) (hna : Val.na ∈ vs)
    (hnd : (vs.filter (fun v => decide (v ≠ Val.na))).Nodup) :
    rowNUnique vs < vs.length := by
  unfold rowNUnique
  rw [List.dedup_eq_self.mpr hnd]
  have hlt : (vs.filter (fun v => decide (v ≠ Val.na))).length < vs.length := by
    apply List.length_filter_lt_length_iff_exists.mpr
    exact ⟨Val.na, hna, by simp⟩
  exact hlt

/-- C10: missing values are excluded from the per-row distinct count:
a row whose target columns contain a missing value alongside otherwise
pairwise-distinct values is flagged by `NoLabelDuplicatesConstraint`, and a
row holding exactly one distinct non-missing value (plus missing values) is
valid for `LinkedParametersConstraint`. -/
theorem claim_C10_missing_values (params : List String) (t : Table)
    (out1 out2 : List Nat) (i : Nat) (r : Row)
    (h1 : noLabelDuplicatesGetInvalid params t = .ok out1)
    (h2 : linkedParametersGetInvalid params t = .ok out2)
    (hmem : (i, r) ∈ t.entries) :
    (Val.na ∈ selectVals t.columns params r →
      ((selectVals t.columns params r).filter (fun v => decide (v ≠ Val.na))).Nodup →
      i ∈ out1) ∧
    (t.rowIds.Nodup → rowNUnique (selectVals t.columns params r) = 1 → i ∉ out2) := by
  obtain ⟨_, hout1⟩ := (noLabelDup_ok_iff params t out1).mp h1
  obtain ⟨_, hout2⟩ := (linked_ok_iff params t out2).mp h2
  constructor
  · intro hna hnd
    have hlen : (selectVals t.columns params r).length = params.length := by
      simp [selectVals]
    have hpred : labelDupPred t.columns params (i, r) = true := by
      unfold labelDupPred
      have := rowNUnique_lt_of_na (selectVals t.columns params r) hna hnd
      rw [hlen] at this
      simp only [decide_eq_true_eq]
      omega
    rw [hout1, Table.rowIds, indexWhere_map]
    rw [List.mem_filterMap]
    exact ⟨(i, r), hmem, by rw [hpred]; rfl⟩
  · intro hnd hone
    rw [hout2, Table.rowIds, indexWhere_map]
    intro hcon
    rw [List.mem_filterMap] at hcon
    obtain ⟨e, he, hif⟩ := hcon
    by_cases hp : linkedPred t.columns params e = true
    · rw [if_pos hp] at hif
      have hei : e.1 = i := by simpa using hif
      have hre : e.2 = r := by
        have : (i, e.2) ∈ t.entries := by
          rw [← hei]
          exact he
        exact fst_nodup_unique t.entries (by simpa [Table.rowIds] using hnd) i e.2 r this hmem
      unfold linkedPred at hp
      rw [hre] at hp
      simp only [decide_eq_true_eq] at hp
      exact hp hone
    · rw [if_neg hp] at hif
      exact Option.noConfusion hif

/-- C3 counterexample: the flag mutation is NOT performed before use — a
single `get_invalid` call on a freshly built constraint (nested flag still
`false`) leaves the constraint in a different state, i.e. the mutation
happens during the call. -/
theorem claim_C3_counterexample :
    (PermutationInvarianceConstraint.get_invalid_step
      ⟨["p1", "p2"], some ⟨["p1"], [Condition.subselection ["on"]], [["x"]], false⟩⟩
      ⟨["p1", "p2", "x"], [(0, [Val.str "A", Val.str "B", Val.str "u"])]⟩).2 ≠
    ⟨["p1", "p2"], some ⟨["p1"], [Condition.subselection ["on"]], [["x"]], false⟩⟩ := by
  decide

/-- C3 amended: every `get_invalid` call either leaves the constraint
unchanged or performs exactly the one wiring mutation (setting the nested
`permutation_invariant` flag to `True`); the mutation is idempotent — on an
already wired constraint no call changes the state — and the incoming flag
value never influences the result, since the call overwrites it before
evaluating the dependencies. -/
theorem claim_C3_wiring_amended (c : PermutationInvarianceConstraint) (t : Table) :
    ((c.get_invalid_step t).2 = c ∨ (c.get_invalid_step t).2 = c.wire) ∧
    ((c.wire.get_invalid_step t).2 = c.wire) ∧
    (c.wire.wire = c.wire) ∧
    ((c.wire.get_invalid_step t).1 = (c.get_invalid_step t).1) := by
  obtain ⟨cp, cd⟩ := c
  cases cd with
  | none =>
    simp only [PermutationInvarianceConstraint.wire, Option.map_none']
    unfold PermutationInvarianceConstraint.get_invalid_step
    cases h12 : permInvStage12 cp t <;> simp [h12]
  | some d =>
    simp only [PermutationInvarianceConstraint.wire, Option.map_some']
    unfold PermutationInvarianceConstraint.get_invalid_step
    cases h12 : permInvStage12 cp t with
    | error e => simp [h12]
    | ok inds =>
      simp only [h12]
      cases hdep : DependenciesConstraint.get_invalid
          { d with permutation_invariant := true } (t.dropIds inds) <;>
        simp [hdep]

/-- C2: in `DependenciesConstraint.get_invalid`, the sentinel written over
the affected cells of governing parameter `k` compares equal only to
itself — two sentinels of the same governing parameter collide, while
sentinels of different governing parameters never collide with each other
or with genuine data values — and, on the signatures built from the
re-keyed affected columns (unordered under `permutation_invariant`, ordered
otherwise), a row is invalid iff its combined signature equals that of an
earlier row, keeping the first occurrence valid. -/
theorem claim_C2_dependencies_signature :
    (∀ j k : Nat, (CVal.dummy j = CVal.dummy k ↔ j = k) ∧
      ∀ v : Val, CVal.dummy j ≠ CVal.base v) ∧
    ∀ (c : DependenciesConstraint) (t : Table)
      (sigs : List (List CVal × (Multiset CVal ⊕ List CVal))),
      c.sigs t = .ok sigs →
      (c.get_invalid t = .ok (indexWhere t.rowIds (dupMask sigs)) ∧
       ∀ p, p < sigs.length →
         ((dupMask sigs).getD p false = true ↔
           ∃ q, q < p ∧
             sigs.getD q ([], Sum.inr []) = sigs.getD p ([], Sum.inr []))) := by
  constructor
  · intro j k
    constructor
    · constructor
      · intro h; exact CVal.dummy.inj h
      · intro h; rw [h]
    · intro v h; exact CVal.noConfusion h
  · intro c t sigs hsigs
    exact ⟨dep_get_invalid_of_sigs c t sigs hsigs,
      fun p hp => dupMask_getD ([], Sum.inr []) sigs p hp⟩

theorem rowNUnique_eq_length_iff (vs : List Val) :
    rowNUnique vs = vs.length ↔ vs.Nodup ∧ Val.na ∉ vs := by
  unfold rowNUnique
  constructor
  · intro h
    have hf : List.Sublist (vs.filter (fun v => decide (v ≠ Val.na))) vs :=
      List.filter_sublist vs
    have hd : List.Sublist (vs.filter (fun v => decide (v ≠ Val.na))).dedup
        (vs.filter (fun v => decide (v ≠ Val.na))) :=
      List.dedup_sublist _
    have hlen1 : (vs.filter (fun v => decide (v ≠ Val.na))).length = vs.length := by
      have := hd.length_le
      have := hf.length_le
      omega
    have heqf : vs.filter (fun v => decide (v ≠ Val.na)) = vs := hf.eq_of_length hlen1
    have hna : Val.na ∉ vs := by
      intro hmem
      have := (List.filter_eq_self.mp heqf) Val.na hmem
      simp at this
    have hlend : (vs.filter (fun v => decide (v ≠ Val.na))).dedup.length =
        (vs.filter (fun v => decide (v ≠ Val.na))).length := by omega
    have heqd := hd.eq_of_length hlend
    rw [heqf] at heqd
    exact ⟨heqd ▸ List.nodup_dedup vs, hna⟩
  · rintro ⟨hnd, hna⟩
    have heqf : vs.filter (fun v => decide (v ≠ Val.na)) = vs :=
      List.filter_eq_self.mpr (fun v hv => by
        simp only [decide_eq_true_eq]
        rintro rfl
        exact hna hv)
    rw [heqf, List.dedup_eq_self.mpr hnd]

/-- Stage 2 as the claim words it: among the rows that passed stage 1, a
row is flagged when its signature — the unordered multiset of the
`parameters` values together with all other column values unchanged —
equals that of an earlier row, keeping the first occurrence valid. -/
def permInvStage2Spec (params : List String) (t : Table) (s1 : List Nat) : List Nat :=
  indexWhere ((t.entries.filter (fun e => !(s1.contains e.1))).map Prod.fst)
    (dupMask ((t.entries.filter (fun e => !(s1.contains e.1))).map
      (fun e => (selectVals t.columns (t.columns.filter (fun c => !(params.contains c))) e.2,
        ((selectVals t.columns params e.2 : List Val) : Multiset Val)))))

theorem stage1_filter_pred_false (params : List String) (t : Table) (s1 : List Nat)
    (hs1 : s1 = indexWhere t.rowIds (t.entries.map (labelDupPred t.columns params)))
    (e : Nat × Row) (he : e ∈ t.entries.filter (fun e => !(s1.contains e.1))) :
    labelDupPred t.columns params e = false := by
  rw [List.mem_filter] at he
  obtain ⟨hmem, hflag⟩ := he
  cases hpred : labelDupPred t.columns params e with
  | false => rfl
  | true =>
    exfalso
    have hin : e.1 ∈ s1 := by
      rw [hs1, Table.rowIds, indexWhere_map, List.mem_filterMap]
      exact ⟨e, hmem, by rw [hpred]; rfl⟩
    have hc : s1.contains e.1 = true := List.elem_iff.mpr hin
    rw [hc] at hflag
    exact Bool.noConfusion hflag

theorem permInvSig_eq_spec (params others : List String) (cols : List String) (r : Row)
    (hpred : decide (rowNUnique (selectVals cols params r) ≠ params.length) = false) :
    permInvSig cols params others r =
      (selectVals cols others r, ((selectVals cols params r : List Val) : Multiset Val)) := by
  unfold permInvSig
  have heq : rowNUnique (selectVals cols params r) = params.length := by
    simpa using hpred
  have hlen : (selectVals cols params r).length = params.length := by simp [selectVals]
  obtain ⟨hnd, _⟩ := (rowNUnique_eq_length_iff (selectVals cols params r)).mp (by omega)
  rw [List.dedup_eq_self.mpr hnd]

theorem mem_stage1_ids_iff (t : Table) (s1 : List Nat)
    (hsub : ∀ i ∈ s1, i ∈ t.rowIds) (i : Nat) :
    (i ∈ t.entries.filterMap (fun e => if s1.contains e.1 then some e.1 else none)) ↔
      i ∈ s1 := by
  rw [List.mem_filterMap]
  constructor
  · rintro ⟨e, he, hif⟩
    by_cases hc : s1.contains e.1 = true
    · rw [if_pos hc] at hif
      have : e.1 = i := by simpa using hif
      rw [← this]
      exact List.elem_iff.mp hc
    · rw [if_neg hc] at hif
      exact Option.noConfusion hif
  · intro hi
    have := hsub i hi
    rw [Table.rowIds, List.mem_map] at this
    obtain ⟨e, he, hei⟩ := this
    refine ⟨e, he, ?_⟩
    rw [if_pos (List.elem_iff.mpr (hei ▸ hi))]
    rw [hei]

/-- C1: `PermutationInvarianceConstraint.get_invalid` returns exactly the
union of (1) the label-duplicate rows (the `NoLabelDuplicatesConstraint`
logic over the same parameters), (2) among the remaining rows, the
first-occurrence-preserving duplicates of the signature made of the
unordered multiset of the `parameters` values together with all other
columns unchanged, and (3) when dependencies are attached, the duplicates
the dependency evaluation reports in permutation-invariant mode on the
rows not yet flagged. -/
theorem claim_C1_perm_invariance_three_stages (c : PermutationInvarianceConstraint)
    (t : Table) (out s1 : List Nat)
    (hout : c.get_invalid t = .ok out)
    (hs1 : noLabelDuplicatesGetInvalid c.parameters t = .ok s1) :
    (c.dependencies = none →
      ∀ i, i ∈ out ↔ i ∈ s1 ∨ i ∈ permInvStage2Spec c.parameters t s1) ∧
    (∀ d, c.dependencies = some d →
      ∃ s3, DependenciesConstraint.get_invalid { d with permutation_invariant := true }
          (t.dropIds (s1 ++ permInvStage2Spec c.parameters t s1)) = .ok s3 ∧
        ∀ i, i ∈ out ↔ (i ∈ s1 ∨ i ∈ permInvStage2Spec c.parameters t s1 ∨ i ∈ s3)) := by
  unfold PermutationInvarianceConstraint.get_invalid
    PermutationInvarianceConstraint.get_invalid_step at hout
  split at hout
  · exact Except.noConfusion hout
  · rename_i inds h12
    obtain ⟨s1', hs1', hshape⟩ := permInvStage12_elim c.parameters t inds h12
    rw [hs1] at hs1'
    have hs1eq : s1 = s1' := Except.ok.inj hs1'
    subst hs1eq
    obtain ⟨_, hs1shape⟩ := (noLabelDup_ok_iff c.parameters t s1).mp hs1
    have hsub : ∀ i ∈ s1, i ∈ t.rowIds := by
      rw [hs1shape]
      exact indexWhere_subset _ _
    have hmap : (t.entries.filter (fun e => !(s1.contains e.1))).map
        (fun e => permInvSig t.columns c.parameters
          (t.columns.filter (fun col => !(c.parameters.contains col))) e.2) =
        (t.entries.filter (fun e => !(s1.contains e.1))).map
          (fun e => (selectVals t.columns
              (t.columns.filter (fun col => !(c.parameters.contains col))) e.2,
            ((selectVals t.columns c.parameters e.2 : List Val) : Multiset Val))) :=
      List.map_congr_left (fun e he =>
        permInvSig_eq_spec c.parameters _ t.columns e.2
          (stage1_filter_pred_false c.parameters t s1 hs1shape e he))
    rw [hmap] at hshape
    have hmemInds : ∀ i, i ∈ inds ↔
        i ∈ s1 ∨ i ∈ permInvStage2Spec c.parameters t s1 := by
      intro i
      rw [hshape, mem_idxUnion, mem_stage1_ids_iff t s1 hsub i]
      rfl
    split at hout
    · rename_i hd
      constructor
      · intro _ i
        have : inds = out := Except.ok.inj hout
        rw [← this]
        exact hmemInds i
      · intro d hd'
        rw [hd] at hd'
        exact Option.noConfusion hd'
    · rename_i d hd
      split at hout
      · exact Except.noConfusion hout
      · rename_i more hdep
        have hdrop : t.dropIds inds =
            t.dropIds (s1 ++ permInvStage2Spec c.parameters t s1) := by
          unfold Table.dropIds
          congr 1
          refine List.filter_congr (fun e _ => ?_)
          rw [decide_eq_decide]
          rw [not_iff_not]
          rw [hmemInds e.1, List.mem_append]
        constructor
        · intro hnone
          rw [hd] at hnone
          exact Option.noConfusion hnone
        · intro d' hd'
          rw [hd] at hd'
          have hdd : d = d' := Option.some.inj hd'
          subst hdd
          refine ⟨more, hdrop ▸ hdep, fun i => ?_⟩
          have : idxUnion inds more = out := Except.ok.inj hout
          rw [← this, mem_idxUnion, hmemInds i, or_assoc]

theorem indexWhere_nil_of_mask_false :
    ∀ (ids : List Nat) (mask : List Bool), (∀ b ∈ mask, b = false) →
      indexWhere ids mask = [] := by
  intro ids
  induction ids with
  | nil => intro mask _; rfl
  | cons i is ih =>
    intro mask hm
    cases mask with
    | nil => rfl
    | cons b bs =>
      rw [indexWhere_cons, if_neg (by rw [hm b (by simp)]; simp)]
      exact ih bs (fun x hx => hm x (by simp [hx]))

theorem dupMask_length {β : Type} [DecidableEq β] (l : List β) :
    (dupMask l).length = l.length := dupMaskAux_length l []

theorem dropIds_nil (t : Table) : t.dropIds [] = t := by
  unfold Table.dropIds
  cases t with
  | mk cols entries =>
    simp only [Table.mk.injEq, true_and]
    exact List.filter_eq_self.mpr (fun a _ => by simp)

theorem dupMask_false_of_nodup {β : Type} [DecidableEq β] (l : List β) (h : l.Nodup) :
    ∀ b ∈ dupMask l, b = false :=
  dupMaskAux_false_of_nodup l [] h (fun x _ => List.not_mem_nil x)

/-- Rows kept by a keep-first `duplicated` pass have pairwise distinct
signatures, and removing a superset of the flagged rows leaves no
duplicates: the filtered signature list is `Nodup`. -/
theorem filter_map_sig_nodup {α β : Type} [DecidableEq β]
    (l : List α) (sig : α → β) (Q : α → Bool) (flagged : List Nat) (g : α → Nat)
    (hflag : ∀ p (hp : p < l.length),
      (dupMask (l.map sig)).getD p false = true → g (l.get ⟨p, hp⟩) ∈ flagged)
    (hq : ∀ e ∈ l, Q e = true → g e ∉ flagged) :
    ((l.filter Q).map sig).Nodup := by
  have hsubl : List.Sublist (l.filter Q) (keepUnflagged l (dupMask (l.map sig))) := by
    apply filter_sublist_keepUnflagged
    · rw [dupMask_length, List.length_map]
    · intro p hp hqp
      cases hb : (dupMask (l.map sig)).getD p false with
      | false => rfl
      | true =>
        exfalso
        exact hq (l.get ⟨p, hp⟩) (by exact List.getElem_mem hp) hqp (hflag p hp hb)
  have hnd : ((keepUnflagged l (dupMask (l.map sig))).map sig).Nodup := by
    rw [← keepUnflagged_map]
    exact keepUnflagged_dupMask_nodup (l.map sig)
  exact hnd.sublist (hsubl.map sig)

theorem getD_map_fst {α : Type} (l : List α) (g : α → Nat) (p : Nat) (hp : p < l.length) :
    (l.map g).getD p 0 = g (l.get ⟨p, hp⟩) := by
  rw [List.getD_eq_getElem _ _ (by simpa using hp)]
  simp

/-- After dropping a superset of the rows a `DependenciesConstraint` call
flagged, a second call flags nothing. -/
theorem dep_get_invalid_drop (d : DependenciesConstraint) (t2 : Table)
    (more out : List Nat) (hdep : d.get_invalid t2 = .ok more)
    (hsub : ∀ i ∈ more, i ∈ out) :
    d.get_invalid (t2.dropIds out) = .ok [] := by
  obtain ⟨s2, hs2, hmore⟩ := dep_get_invalid_elim d t2 more hdep
  obtain ⟨hshape, hfilter⟩ := dep_sigs_props d t2 s2 hs2
  have hsig' : d.sigs (t2.dropIds out) =
      .ok ((t2.entries.filter (fun e => decide (e.1 ∉ out))).map (depRowFull d t2.columns)) :=
    hfilter (fun e => decide (e.1 ∉ out))
  have hnodup : ((t2.entries.filter (fun e => decide (e.1 ∉ out))).map
      (depRowFull d t2.columns)).Nodup := by
    apply filter_map_sig_nodup t2.entries (depRowFull d t2.columns) _ out Prod.fst
    · intro p hp hflag
      apply hsub
      rw [hmore]
      have hid : t2.rowIds.getD p 0 = (t2.entries.get ⟨p, hp⟩).1 :=
        getD_map_fst t2.entries Prod.fst p hp
      rw [← hid]
      apply getD_mem_indexWhere
      · simpa [Table.rowIds] using hp
      · rw [hshape, dupMask_length, List.length_map]
        exact hp
      · rw [hshape]
        exact hflag
    · intro e _ hq
      simpa using hq
  apply dep_get_invalid_of_sigs d (t2.dropIds out) _ hsig' |>.trans
  congr 1
  apply indexWhere_nil_of_mask_false
  exact dupMask_false_of_nodup _ hnodup


/-- After dropping a superset of the rows flagged by stages 1 and 2, a new
stage-1/2 pass flags nothing. -/
theorem permInvStage12_drop (params : List String) (t : Table) (inds out : List Nat)
    (h12 : permInvStage12 params t = .ok inds)
    (hsub : ∀ i ∈ inds, i ∈ out) :
    permInvStage12 params (t.dropIds out) = .ok [] := by
  obtain ⟨s1, hs1, hshape⟩ := permInvStage12_elim params t inds h12
  obtain ⟨hall, hs1shape⟩ := (noLabelDup_ok_iff params t s1).mp hs1
  have hmemA : ∀ e ∈ t.entries, s1.contains e.1 = true → e.1 ∈ inds := by
    intro e he hc
    rw [hshape, mem_idxUnion]
    exact Or.inl (List.mem_filterMap.mpr ⟨e, he, by rw [if_pos hc]⟩)
  have hpredfalse : ∀ e ∈ (t.dropIds out).entries,
      labelDupPred t.columns params e = false := by
    intro e he
    simp only [Table.dropIds, List.mem_filter] at he
    obtain ⟨hmem, hq⟩ := he
    cases hpred : labelDupPred t.columns params e with
    | false => rfl
    | true =>
      exfalso
      have hin : e.1 ∈ s1 := by
        rw [hs1shape, Table.rowIds, indexWhere_map, List.mem_filterMap]
        exact ⟨e, hmem, by rw [hpred]; rfl⟩
      have hout : e.1 ∈ out := hsub e.1 (hmemA e hmem (List.elem_iff.mpr hin))
      simp only [decide_eq_true_eq] at hq
      exact hq hout
  have hnoLab : noLabelDuplicatesGetInvalid params (t.dropIds out) = .ok [] := by
    rw [noLabelDup_ok_iff]
    refine ⟨hall, ?_⟩
    exact (indexWhere_nil_of_false _ _ _ hpredfalse).symm
  have hts : (t.dropIds out).entries =
      (t.entries.filter (fun e => !(s1.contains e.1))).filter
        (fun e => decide (e.1 ∉ out)) := by
    rw [List.filter_filter]
    show t.entries.filter (fun e => decide (e.1 ∉ out)) = _
    refine List.filter_congr (fun e he => ?_)
    cases hq : decide (e.1 ∉ out) with
    | false => simp
    | true =>
      simp only [Bool.true_and]
      cases hc : s1.contains e.1 with
      | false => simp
      | true =>
        exfalso
        simp only [decide_eq_true_eq] at hq
        exact hq (hsub e.1 (hmemA e he hc))
  have hnodup : (((t.entries.filter (fun e => !(s1.contains e.1))).filter
      (fun e => decide (e.1 ∉ out))).map
        (fun e => permInvSig t.columns params
          (t.columns.filter (fun c => !(params.contains c))) e.2)).Nodup := by
    apply filter_map_sig_nodup _ _ _ out Prod.fst
    · intro p hp hflag
      apply hsub
      rw [hshape, mem_idxUnion]
      right
      rw [← getD_map_fst (t.entries.filter (fun e => !(s1.contains e.1))) Prod.fst p hp]
      apply getD_mem_indexWhere
      · simpa using hp
      · rw [dupMask_length, List.length_map]
        exact hp
      · exact hflag
    · intro e _ hq
      simpa using hq
  -- assemble the stage-1/2 run on the dropped table
  simp only [permInvStage12]
  rw [hnoLab]
  simp only [bind, Except.bind, pure, Except.pure]
  have h1 : (t.dropIds out).entries.filterMap
      (fun e => if ([] : List Nat).contains e.1 then some e.1 else none) = [] :=
    List.filterMap_eq_nil_iff.mpr (fun e _ => rfl)
  have h2 : (t.dropIds out).entries.filter
      (fun e => !(([] : List Nat).contains e.1)) = (t.dropIds out).entries :=
    List.filter_eq_self.mpr (fun e _ => rfl)
  rw [h1, h2]
  have h3 : indexWhere ((t.dropIds out).entries.map Prod.fst)
      (dupMask ((t.dropIds out).entries.map
        (fun e => permInvSig (t.dropIds out).columns params
          ((t.dropIds out).columns.filter (fun c => !(params.contains c))) e.2))) = [] := by
    apply indexWhere_nil_of_mask_false
    apply dupMask_false_of_nodup
    show ((t.dropIds out).entries.map _).Nodup
    have hcols : (t.dropIds out).columns = t.columns := rfl
    rw [hcols, hts]
    exact hnodup
  rw [h3]
  rfl

/-- C8: `PermutationInvarianceConstraint.get_invalid` is idempotent — after
removing all rows it flags, re-evaluating the same constraint on the
remaining table yields the empty invalid set. -/
theorem claim_C8_perm_invariance_idempotent (c : PermutationInvarianceConstraint)
    (t : Table) (out : List Nat) (hout : c.get_invalid t = .ok out) :
    c.get_invalid (t.dropIds out) = .ok [] := by
  unfold PermutationInvarianceConstraint.get_invalid
    PermutationInvarianceConstraint.get_invalid_step at hout
  split at hout
  · exact Except.noConfusion hout
  · rename_i inds h12
    split at hout
    · rename_i hd
      have hio : inds = out := Except.ok.inj hout
      subst hio
      have hstage' := permInvStage12_drop c.parameters t inds inds h12 (fun _ hi => hi)
      unfold PermutationInvarianceConstraint.get_invalid
        PermutationInvarianceConstraint.get_invalid_step
      rw [hstage', hd]
    · rename_i d hd
      split at hout
      · exact Except.noConfusion hout
      · rename_i more hdep
        have hio : idxUnion inds more = out := Except.ok.inj hout
        have hsubi : ∀ i ∈ inds, i ∈ out := by
          intro i hi
          rw [← hio, mem_idxUnion]
          exact Or.inl hi
        have hsubm : ∀ i ∈ more, i ∈ out := by
          intro i hi
          rw [← hio, mem_idxUnion]
          exact Or.inr hi
        have hstage' := permInvStage12_drop c.parameters t inds out h12 hsubi
        have heqt : (t.dropIds inds).dropIds out = t.dropIds out := by
          unfold Table.dropIds
          simp only [Table.mk.injEq, true_and]
          rw [List.filter_filter]
          refine List.filter_congr (fun e _ => ?_)
          cases hq : decide (e.1 ∉ out) with
          | false => simp
          | true =>
            simp only [Bool.true_and]
            simp only [decide_eq_true_eq] at hq
            simp only [decide_eq_true_eq]
            intro hin
            exact hq (hsubi e.1 hin)
        have hdep' : DependenciesConstraint.get_invalid
            { d with permutation_invariant := true } (t.dropIds out) = .ok [] := by
          rw [← heqt]
          exact dep_get_invalid_drop _ (t.dropIds inds) more out hdep hsubm
        unfold PermutationInvarianceConstraint.get_invalid
          PermutationInvarianceConstraint.get_invalid_step
        rw [hstage', hd]
        simp only [dropIds_nil, hdep']
        rfl

theorem parseStr_map_roundtrip :
    ∀ sel : List String, (sel.map SVal.s).mapM parseStr = .ok sel := by
  intro sel
  induction sel with
  | nil => rfl
  | cons a rest ih =>
    rw [List.map_cons, List.mapM_cons, ih]
    rfl

theorem parseStrList_roundtrip (sel : List String) :
    parseStrList (.arr (sel.map SVal.s)) = .ok sel := by
  simp only [parseStrList]
  exact parseStr_map_roundtrip sel

theorem structureCondition_roundtrip (cond : Condition) :
    structureCondition (unstructureCondition cond) = .ok cond := by
  cases cond with
  | threshold thr op tol => cases tol <;> rfl
  | subselection sel =>
    show Except.bind (parseStrList (SVal.arr (sel.map SVal.s)))
      (fun sel2 => Except.ok (Condition.subselection sel2)) = .ok (.subselection sel)
    rw [parseStrList_roundtrip sel]
    rfl

theorem parseCondList_roundtrip (cs : List Condition) :
    parseCondList (.arr (cs.map unstructureCondition)) = .ok cs := by
  show (cs.map unstructureCondition).mapM structureCondition = .ok cs
  induction cs with
  | nil => rfl
  | cons c rest ih =>
    rw [List.map_cons, List.mapM_cons, structureCondition_roundtrip c, ih]
    rfl

theorem parseStrList_map_roundtrip (aff : List (List String)) :
    (aff.map (fun g => SVal.arr (g.map SVal.s))).mapM parseStrList = .ok aff := by
  induction aff with
  | nil => rfl
  | cons g rest ih =>
    rw [List.map_cons, List.mapM_cons, parseStrList_roundtrip g, ih]
    rfl

theorem structureDependencies_roundtrip (d : DependenciesConstraint) :
    structureDependencies (unstructureDependencies d) =
      .ok ⟨d.parameters, d.conditions, d.affected_parameters, false⟩ := by
  show Except.bind (parseStrList (SVal.arr (d.parameters.map SVal.s)))
    (fun ps => Except.bind (parseCondList (SVal.arr (d.conditions.map unstructureCondition)))
      (fun cs => Except.bind
        ((d.affected_parameters.map (fun g => SVal.arr (g.map SVal.s))).mapM parseStrList)
        (fun aff => Except.ok (DependenciesConstraint.mk ps cs aff false)))) =
    .ok ⟨d.parameters, d.conditions, d.affected_parameters, false⟩
  rw [parseStrList_roundtrip, parseCondList_roundtrip, parseStrList_map_roundtrip]
  rfl

theorem structureConstraint_roundtrip (c : Constraint) :
    ∃ c', structureConstraint (unstructureConstraint c) = .ok c' ∧
      constraintFieldsEq c' c := by
  cases c with
  | exclude ec =>
    refine ⟨.exclude ec, ?_, rfl⟩
    obtain ⟨ps, cs, comb⟩ := ec
    show Except.bind (parseStrList (SVal.arr (ps.map SVal.s)))
      (fun ps2 => Except.bind (parseCondList (SVal.arr (cs.map unstructureCondition)))
        (fun cs2 => Except.bind (parseStr (.s comb))
          (fun comb2 => Except.ok (Constraint.exclude ⟨ps2, cs2, comb2⟩)))) =
      .ok (.exclude ⟨ps, cs, comb⟩)
    rw [parseStrList_roundtrip, parseCondList_roundtrip]
    rfl
  | sum ps cond =>
    refine ⟨.sum ps cond, ?_, rfl⟩
    show Except.bind (parseStrList (SVal.arr (ps.map SVal.s)))
      (fun ps2 => Except.bind (structureCondition (unstructureCondition cond))
        (fun cond2 => Except.ok (Constraint.sum ps2 cond2))) = .ok (.sum ps cond)
    rw [parseStrList_roundtrip, structureCondition_roundtrip]
    rfl
  | product ps cond =>
    refine ⟨.product ps cond, ?_, rfl⟩
    show Except.bind (parseStrList (SVal.arr (ps.map SVal.s)))
      (fun ps2 => Except.bind (structureCondition (unstructureCondition cond))
        (fun cond2 => Except.ok (Constraint.product ps2 cond2))) = .ok (.product ps cond)
    rw [parseStrList_roundtrip, structureCondition_roundtrip]
    rfl
  | noLabelDuplicates ps =>
    refine ⟨.noLabelDuplicates ps, ?_, rfl⟩
    show Except.bind (parseStrList (SVal.arr (ps.map SVal.s)))
      (fun ps2 => Except.ok (Constraint.noLabelDuplicates ps2)) = .ok (.noLabelDuplicates ps)
    rw [parseStrList_roundtrip]
    rfl
  | linkedParameters ps =>
    refine ⟨.linkedParameters ps, ?_, rfl⟩
    show Except.bind (parseStrList (SVal.arr (ps.map SVal.s)))
      (fun ps2 => Except.ok (Constraint.linkedParameters ps2)) = .ok (.linkedParameters ps)
    rw [parseStrList_roundtrip]
    rfl
  | dependencies d =>
    refine ⟨.dependencies ⟨d.parameters, d.conditions, d.affected_parameters, false⟩,
      ?_, ⟨rfl, rfl, rfl⟩⟩
    show Except.bind (structureDependencies (unstructureDependencies d))
      (fun d2 => Except.ok (Constraint.dependencies d2)) = _
    rw [structureDependencies_roundtrip]
    rfl
  | permutationInvariance pc =>
    obtain ⟨ps, deps⟩ := pc
    cases deps with
    | none =>
      refine ⟨.permutationInvariance ⟨ps, none⟩, ?_, by exact ⟨rfl, trivial⟩⟩
      show Except.bind (parseStrList (SVal.arr (ps.map SVal.s)))
        (fun ps2 => Except.bind (Except.ok (Option.none (α := DependenciesConstraint)))
          (fun deps2 => Except.ok (Constraint.permutationInvariance ⟨ps2, deps2⟩))) =
        .ok (.permutationInvariance ⟨ps, none⟩)
      rw [parseStrList_roundtrip]
      rfl
    | some d =>
      refine ⟨.permutationInvariance
        ⟨ps, some ⟨d.parameters, d.conditions, d.affected_parameters, false⟩⟩,
        ?_, by exact ⟨rfl, ⟨rfl, rfl, rfl⟩⟩⟩
      show Except.bind (parseStrList (SVal.arr (ps.map SVal.s)))
        (fun ps2 => Except.bind
          (Except.bind (structureDependencies (unstructureDependencies d))
            (fun dd => Except.ok (some dd)))
          (fun deps2 => Except.ok (Constraint.permutationInvariance ⟨ps2, deps2⟩))) =
        .ok (.permutationInvariance
          ⟨ps, some ⟨d.parameters, d.conditions, d.affected_parameters, false⟩⟩)
      rw [parseStrList_roundtrip, structureDependencies_roundtrip]
      rfl
  | custom ps v =>
    refine ⟨.custom ps v, ?_, rfl⟩
    show Except.bind (parseStrList (SVal.arr (ps.map SVal.s)))
      (fun ps2 => Except.bind (parseStr (.s v))
        (fun v2 => Except.ok (Constraint.custom ps2 v2))) = .ok (.custom ps v)
    rw [parseStrList_roundtrip]
    rfl

theorem structureCondition_unknown (fields : List (String × SVal)) (tag : String)
    (hlook : lookupS fields "type" = some (.s tag)) (hmem : tag ∉ conditionTypes) :
    structureCondition (.obj fields) = .error (checkIfInMsg tag conditionTypes) := by
  have h1 : tag ≠ "THRESHOLD" := fun h => hmem (by rw [h]; simp [conditionTypes])
  have h2 : tag ≠ "SUBSELECTION" := fun h => hmem (by rw [h]; simp [conditionTypes])
  simp only [structureCondition]
  rw [hlook]
  show conditionDispatch fields tag = _
  unfold conditionDispatch
  rw [if_neg h1, if_neg h2]

theorem structureConstraint_unknown (fields : List (String × SVal)) (tag : String)
    (hlook : lookupS fields "type" = some (.s tag)) (hmem : tag ∉ constraintTypes) :
    structureConstraint (.obj fields) = .error (checkIfInMsg tag constraintTypes) := by
  have hne : ∀ s ∈ constraintTypes, tag ≠ s := fun s hs h => hmem (h ▸ hs)
  simp only [structureConstraint]
  rw [hlook]
  show constraintDispatch (.obj fields) fields tag = _
  unfold constraintDispatch
  rw [if_neg (hne "EXCLUDE" (by simp [constraintTypes])),
    if_neg (hne "SUM" (by simp [constraintTypes])),
    if_neg (hne "PRODUCT" (by simp [constraintTypes])),
    if_neg (hne "NO_LABEL_DUPLICATES" (by simp [constraintTypes])),
    if_neg (hne "LINKED_PARAMETERS" (by simp [constraintTypes])),
    if_neg (hne "DEPENDENCIES" (by simp [constraintTypes])),
    if_neg (hne "PERMUTATION_INVARIANCE" (by simp [constraintTypes])),
    if_neg (hne "CUSTOM" (by simp [constraintTypes]))]

/-- C4: for every concrete Condition and Constraint variant (including the
custom constraint), deserializing the serialization of an instance
reconstructs an instance equal to the original field by field (the
non-field class attribute `permutation_invariant` resets to its default),
and deserializing a mapping whose `type` is unregistered fails with an
error naming the registered options. -/
theorem claim_C4_serialization_roundtrip :
    (∀ cond : Condition, structureCondition (unstructureCondition cond) = .ok cond) ∧
    (∀ c : Constraint, ∃ c', structureConstraint (unstructureConstraint c) = .ok c' ∧
      constraintFieldsEq c' c) ∧
    (∀ (fields : List (String × SVal)) (tag : String),
      lookupS fields "type" = some (.s tag) → tag ∉ conditionTypes →
      structureCondition (.obj fields) = .error (checkIfInMsg tag conditionTypes)) ∧
    (∀ (fields : List (String × SVal)) (tag : String),
      lookupS fields "type" = some (.s tag) → tag ∉ constraintTypes →
      structureConstraint (.obj fields) = .error (checkIfInMsg tag constraintTypes)) :=
  ⟨structureCondition_roundtrip, structureConstraint_roundtrip,
   structureCondition_unknown, structureConstraint_unknown⟩

/-! ## Witnesses: the claim theorems applied at concrete inputs -/

theorem claim_C1_perm_invariance_three_stages_witness :
    1 ∈ [1, 2, 4] ↔ 1 ∈ [2] ∨ 1 ∈ permInvStage2Spec ["p1", "p2"]
      ⟨["p1", "p2", "x"],
        [(0, [.str "A", .str "B", .str "u"]),
         (1, [.str "B", .str "A", .str "u"]),
         (2, [.str "A", .str "A", .str "u"]),
         (3, [.str "A", .str "B", .str "v"]),
         (4, [.str "A", .str "B", .str "u"])]⟩ [2] :=
  (claim_C1_perm_invariance_three_stages ⟨["p1", "p2"], none⟩
    ⟨["p1", "p2", "x"],
      [(0, [.str "A", .str "B", .str "u"]),
       (1, [.str "B", .str "A", .str "u"]),
       (2, [.str "A", .str "A", .str "u"]),
       (3, [.str "A", .str "B", .str "v"]),
       (4, [.str "A", .str "B", .str "u"])]⟩
    [1, 2, 4] [2] rfl rfl).1 rfl 1

theorem claim_C2_dependencies_signature_witness :
    DependenciesConstraint.get_invalid ⟨["p1"], [.subselection ["A"]], [["x"]], false⟩
      ⟨["p1", "x"],
        [(0, [.str "A", .str "u"]), (1, [.str "B", .str "u"]),
         (2, [.str "B", .str "v"]), (3, [.str "A", .str "v"])]⟩ =
    .ok (indexWhere [0, 1, 2, 3] (dupMask
      ([([], Sum.inr [CVal.pair (CVal.base (Val.str "u")) (CVal.base (Val.str "A"))]),
        ([], Sum.inr [CVal.pair (CVal.dummy 0) (CVal.base (Val.str "B"))]),
        ([], Sum.inr [CVal.pair (CVal.dummy 0) (CVal.base (Val.str "B"))]),
        ([], Sum.inr [CVal.pair (CVal.base (Val.str "v")) (CVal.base (Val.str "A"))])]
        : List (List CVal × (Multiset CVal ⊕ List CVal))))) :=
  (claim_C2_dependencies_signature.2 ⟨["p1"], [.subselection ["A"]], [["x"]], false⟩
    ⟨["p1", "x"],
      [(0, [.str "A", .str "u"]), (1, [.str "B", .str "u"]),
       (2, [.str "B", .str "v"]), (3, [.str "A", .str "v"])]⟩
    _ rfl).1

theorem claim_C4_serialization_roundtrip_witness :
    structureConstraint (.obj [("type", SVal.s "FOO")]) =
      .error (checkIfInMsg "FOO" constraintTypes) :=
  claim_C4_serialization_roundtrip.2.2.2 [("type", SVal.s "FOO")] "FOO" rfl (by decide)

theorem claim_C5_get_invalid_subset_witness :
    2 ∈ (Table.mk ["p1", "p2"]
      [(0, [Val.str "A", Val.str "B"]), (2, [Val.str "A", Val.str "A"])]).rowIds :=
  claim_C5_get_invalid_subset (fun _ _ => true) (.noLabelDuplicates ["p1", "p2"])
    ⟨["p1", "p2"], [(0, [Val.str "A", Val.str "B"]), (2, [Val.str "A", Val.str "A"])]⟩
    [2] rfl 2 (by decide)

theorem claim_C7_exclude_combiners_witness :
    (Table.mk ["p1", "p2", "x"]
      [(0, [Val.str "A", Val.str "B", Val.str "u"]),
       (1, [Val.str "B", Val.str "A", Val.str "u"]),
       (2, [Val.str "A", Val.str "A", Val.str "u"]),
       (3, [Val.str "A", Val.str "B", Val.str "v"]),
       (4, [Val.str "A", Val.str "B", Val.str "u"])]).rowIds.getD 2 0 ∈ [2] :=
  ((claim_C7_exclude_combiners
    ⟨["p1", "p2"], [.subselection ["A"], .subselection ["A"]], "AND"⟩
    ⟨["p1", "p2", "x"],
      [(0, [Val.str "A", Val.str "B", Val.str "u"]),
       (1, [Val.str "B", Val.str "A", Val.str "u"]),
       (2, [Val.str "A", Val.str "A", Val.str "u"]),
       (3, [Val.str "A", Val.str "B", Val.str "v"]),
       (4, [Val.str "A", Val.str "B", Val.str "u"])]⟩
    [[true, false, true, true, true], [false, true, true, false, false]]
    [2] 2 rfl rfl (by decide) (by decide)).1 rfl).mpr (by decide)

theorem claim_C8_perm_invariance_idempotent_witness :
    PermutationInvarianceConstraint.get_invalid ⟨["p1", "p2"], none⟩
      ((Table.mk ["p1", "p2", "x"]
        [(0, [Val.str "A", Val.str "B", Val.str "u"]),
         (1, [Val.str "B", Val.str "A", Val.str "u"]),
         (2, [Val.str "A", Val.str "A", Val.str "u"]),
         (3, [Val.str "A", Val.str "B", Val.str "v"]),
         (4, [Val.str "A", Val.str "B", Val.str "u"])]).dropIds [1, 2, 4]) = .ok [] :=
  claim_C8_perm_invariance_idempotent ⟨["p1", "p2"], none⟩
    ⟨["p1", "p2", "x"],
      [(0, [Val.str "A", Val.str "B", Val.str "u"]),
       (1, [Val.str "B", Val.str "A", Val.str "u"]),
       (2, [Val.str "A", Val.str "A", Val.str "u"]),
       (3, [Val.str "A", Val.str "B", Val.str "v"]),
       (4, [Val.str "A", Val.str "B", Val.str "u"])]⟩
    [1, 2, 4] rfl

theorem claim_C9_exclude_length_mismatch_witness :
    (mkExcludeConstraint ["p1", "p2"] [.subselection ["A"]] "AND" =
      .ok ⟨["p1", "p2"], [.subselection ["A"]], "AND"⟩) ∧
    (ExcludeConstraint.get_invalid ⟨["p1", "p2"], [.subselection ["A"]], "AND"⟩
        ⟨["p1", "p2"], [(0, [Val.str "A", Val.str "B"])]⟩ =
      ExcludeConstraint.get_invalid
        ⟨["p1", "p2"].take 1, [.subselection ["A"]], "AND"⟩
        ⟨["p1", "p2"], [(0, [Val.str "A", Val.str "B"])]⟩) ∧
    (ExcludeConstraint.get_invalid
        ⟨["p1"], [.subselection ["A"], .subselection ["B"]], "AND"⟩
        ⟨["p1"], [(0, [Val.str "A"])]⟩ ≠ .ok []) :=
  ⟨claim_C9_exclude_length_mismatch.1 ["p1", "p2"] [.subselection ["A"]] "AND"
    (by decide) (by decide) (by decide),
   claim_C9_exclude_length_mismatch.2.1 ["p1", "p2"] [.subselection ["A"]] "AND"
    ⟨["p1", "p2"], [(0, [Val.str "A", Val.str "B"])]⟩ (by decide),
   claim_C9_exclude_length_mismatch.2.2.1 ["p1"]
    [.subselection ["A"], .subselection ["B"]] "AND"
    ⟨["p1"], [(0, [Val.str "A"])]⟩ (by decide) []⟩

theorem claim_C10_missing_values_witness :
    (0 ∈ [0, 1]) ∧ (1 ∉ [0]) :=
  ⟨(claim_C10_missing_values ["p1", "p2", "p3"]
      ⟨["p1", "p2", "p3"],
        [(0, [Val.str "A", Val.na, Val.str "B"]), (1, [Val.str "A", Val.na, Val.na])]⟩
      [0, 1] [0] 0 [Val.str "A", Val.na, Val.str "B"] rfl rfl (by decide)).1
    (by decide) (by decide),
   (claim_C10_missing_values ["p1", "p2", "p3"]
      ⟨["p1", "p2", "p3"],
        [(0, [Val.str "A", Val.na, Val.str "B"]), (1, [Val.str "A", Val.na, Val.na])]⟩
      [0, 1] [0] 1 [Val.str "A", Val.na, Val.na] rfl rfl (by decide)).2
    (by decide) (by decide)⟩
